import Mathlib

/-!
# HookCI Pipeline Execution Engine — verification development

A shallow embedding of the HookCI pipeline execution engine
(`src/hookci/application/services.py` and `src/hookci/infrastructure/docker.py`)
together with proofs of the specified properties.

Bytes are modelled as `Nat` values below 256, byte strings as `List Nat`.
Python generators that yield values and return a final result are modelled as
pure functions returning the list of yielded values together with the result;
a raised exception is modelled with `Except`.
-/

namespace HookCI

/-! ## Domain model (`hookci/domain/config.py`, `hookci/application/events.py`) -/

/-- `LogStream = Literal["stdout", "stderr"]`. -/
inductive LogStream where
  | stdout
  | stderr
deriving DecidableEq, Repr

/-- `EventStatus = Literal["SUCCESS", "FAILURE", "WARNING"]`. -/
inductive EventStatus where
  | SUCCESS
  | FAILURE
  | WARNING
deriving DecidableEq, Repr

/-- `LogLevel` enumeration from `hookci/domain/config.py`. -/
inductive LogLevel where
  | DEBUG
  | INFO
  | ERROR
deriving DecidableEq, Repr

/-- `Step` model from `hookci/domain/config.py`. -/
structure Step where
  name : String
  command : String
  critical : Bool := true
  env : List (String × String) := []
  depends_on : List String := []
deriving DecidableEq, Repr

/-- `Docker` model: optional image reference and optional dockerfile path. -/
structure Docker where
  image : Option String := none
  dockerfile : Option String := none
deriving DecidableEq, Repr

/-- The pydantic `model_validator` `check_image_or_dockerfile` on `Docker`:
it rejects exactly the case where both fields are `None` and the case where
both are not `None` (it does not inspect the strings themselves). -/
def Docker.valid (d : Docker) : Bool :=
  !(d.image = none && d.dockerfile = none) && !(d.image ≠ none && d.dockerfile ≠ none)

/-- `Hooks` model. -/
structure Hooks where
  pre_commit : Bool := true
  pre_push : Bool := true
deriving DecidableEq, Repr

/-- `Filters` model. -/
structure Filters where
  branches : Option String := none
  commits : Option String := none
deriving DecidableEq, Repr

/-- `Configuration` model from `hookci/domain/config.py`. -/
structure Configuration where
  version : String
  log_level : LogLevel := .INFO
  docker : Docker
  hooks : Hooks := {}
  filters : Option Filters := none
  steps : List Step := []
deriving DecidableEq, Repr

/-- Python truthiness of an `Optional[str]`: `None` and the empty string are
falsy, every other string is truthy. -/
def strTruthy : Option String → Bool
  | none => false
  | some s => s ≠ ""

/-- Pipeline events, with the constructors and fields used by
`hookci/application/services.py` (`hookci/application/events.py`). -/
inductive PipelineEvent where
  | PipelineStart (total_steps : Nat) (log_level : LogLevel)
  | ImagePullStart (image_name : String)
  | ImagePullEnd (status : EventStatus)
  | ImageBuildStart (dockerfile_path : String) (tag : String) (total_steps : Nat)
  | ImageBuildProgress (step : Nat) (line : String)
  | ImageBuildEnd (status : EventStatus)
  | StepStart (step : Step)
  | LogLine (line : String) (stream : LogStream) (step_name : String)
  | StepEnd (step : Step) (status : EventStatus) (exit_code : Int)
  | DebugShellStarting (step : Step) (container_id : String)
  | PipelineEnd (status : EventStatus)
deriving DecidableEq, Repr

/-! ## UTF-8 decoding (Python `bytes.decode("utf-8", errors=...)`)

`utf8Step` consumes the leading byte (plus continuation bytes from `rest`) of
a byte string and classifies it either as a decoded code point or as a maximal
invalid subpart of `k` bytes, following CPython's UTF-8 decoder.  The error
handler `"ignore"` drops each invalid subpart; `"replace"` substitutes one
U+FFFD per invalid subpart. -/

/-- One decoded element: a code point, or an invalid subpart of `k` bytes. -/
inductive Utf8Item where
  | chr (c : Nat)
  | err (k : Nat)
deriving DecidableEq, Repr

/-- A UTF-8 continuation byte: `0x80 ≤ b ≤ 0xBF`. -/
def isCont (b : Nat) : Bool := 0x80 ≤ b && b ≤ 0xBF

/-- Decode one UTF-8 unit starting at byte `b` with continuation bytes taken
from `rest`.  Returns the decoded item and how many bytes of `rest` were
consumed in addition to `b`. -/
def utf8Step (b : Nat) (rest : List Nat) : Utf8Item × Nat :=
  if b < 0x80 then (.chr b, 0)
  else if b < 0xC2 then (.err 1, 0)
  else if b ≤ 0xDF then
    match rest with
    | b2 :: _ =>
      if isCont b2 then (.chr ((b - 0xC0) * 64 + (b2 - 0x80)), 1) else (.err 1, 0)
    | [] => (.err 1, 0)
  else if b ≤ 0xEF then
    let lo := if b = 0xE0 then 0xA0 else 0x80
    let hi := if b = 0xED then 0x9F else 0xBF
    match rest with
    | b2 :: rest2 =>
      if lo ≤ b2 && b2 ≤ hi then
        match rest2 with
        | b3 :: _ =>
          if isCont b3 then
            (.chr ((b - 0xE0) * 4096 + (b2 - 0x80) * 64 + (b3 - 0x80)), 2)
          else (.err 2, 1)
        | [] => (.err 2, 1)
      else (.err 1, 0)
    | [] => (.err 1, 0)
  else if b ≤ 0xF4 then
    let lo := if b = 0xF0 then 0x90 else 0x80
    let hi := if b = 0xF4 then 0x8F else 0xBF
    match rest with
    | b2 :: rest2 =>
      if lo ≤ b2 && b2 ≤ hi then
        match rest2 with
        | b3 :: rest3 =>
          if isCont b3 then
            match rest3 with
            | b4 :: _ =>
              if isCont b4 then
                (.chr ((b - 0xF0) * 262144 + (b2 - 0x80) * 4096 +
                       (b3 - 0x80) * 64 + (b4 - 0x80)), 3)
              else (.err 3, 2)
            | [] => (.err 3, 2)
          else (.err 2, 1)
        | [] => (.err 2, 1)
      else (.err 1, 0)
    | [] => (.err 1, 0)
  else (.err 1, 0)

/-- Parse a byte string into a list of decoded items, with explicit fuel.
Each step consumes at least the leading byte, so fuel equal to the input
length (as supplied by `utf8Parse`) never runs out. -/
def utf8ParseFuel : Nat → List Nat → List Utf8Item
  | _, [] => []
  | 0, _ :: _ => []
  | fuel + 1, b :: rest =>
    let (it, k) := utf8Step b rest
    it :: utf8ParseFuel fuel (rest.drop k)

/-- Parse a byte string into a list of decoded items. -/
def utf8Parse (l : List Nat) : List Utf8Item := utf8ParseFuel l.length l

/-- `bytes.decode("utf-8", errors="ignore")`: invalid subparts are dropped. -/
def decodeUtf8Ignore (l : List Nat) : String :=
  String.mk ((utf8Parse l).filterMap fun it =>
    match it with
    | .chr c => some (Char.ofNat c)
    | .err _ => none)

/-- Modelled from the spec: `bytes.decode("utf-8", errors="replace")` —
"decode as UTF-8 with invalid sequences replaced": each maximal invalid
subpart is replaced by U+FFFD. -/
def decodeUtf8Replace (l : List Nat) : String :=
  String.mk ((utf8Parse l).map fun it =>
    match it with
    | .chr c => Char.ofNat c
    | .err _ => Char.ofNat 0xFFFD)

/-! ## Docker log frame parsing (`DockerService._parse_one_frame`) -/

/-- `struct.unpack(">BxxxL", b)`: succeeds exactly when `b` has exactly
8 bytes (otherwise `struct.error` is raised), returning the first byte and
the big-endian unsigned 32-bit integer in bytes 4–7. -/
def decodeHeader (b : List Nat) : Option (Nat × Nat) :=
  match b with
  | [t, _, _, _, l3, l2, l1, l0] => some (t, ((l3 * 256 + l2) * 256 + l1) * 256 + l0)
  | _ => none

/-- `DockerService._parse_one_frame`: try to parse a single log frame from
the buffer, returning the parsed `(stream, content)` pair (or `none` when a
full frame is not available) and the remaining buffer. -/
def parse_one_frame (buffer : List Nat) :
    Option (LogStream × String) × List Nat :=
  if buffer.length < 8 then (none, buffer)
  else
    match decodeHeader (buffer.take 8) with
    | none =>
      -- Malformed header: the whole buffer becomes one stdout message.
      (some (.stdout, decodeUtf8Ignore buffer), [])
    | some (stream_type, length) =>
      if buffer.length < 8 + length then (none, buffer)
      else
        let content_bytes := (buffer.drop 8).take length
        let remaining_buffer := buffer.drop (8 + length)
        let stream : LogStream := if stream_type = 2 then .stderr else .stdout
        (some (stream, decodeUtf8Ignore content_bytes), remaining_buffer)

/-- The `while True` frame-peeling loop of
`DockerService._demultiplex_docker_stream`: repeatedly parse frames from the
buffer until no complete frame remains, collecting the parsed frames and the
final buffer.  Termination: a successful parse strictly shrinks the buffer
(a complete frame consumes at least its 8-byte header; the malformed-header
branch clears the buffer). -/
def drainBuffer (b : List Nat) : List (LogStream × String) × List Nat :=
  match h : parse_one_frame b with
  | (none, b') => ([], b')
  | (some f, b') =>
    let (fs, r) := drainBuffer b'
    (f :: fs, r)
termination_by b.length
decreasing_by
  unfold parse_one_frame at h
  split at h
  · exact absurd h (by simp)
  · rename_i hlen
    split at h
    · obtain ⟨-, h2⟩ := Prod.mk.injEq .. ▸ h
      simp only [← h2, List.length_nil]
      omega
    · rename_i t len hdec
      split at h
      · exact absurd h (by simp)
      · rename_i hfull
        obtain ⟨-, h2⟩ := Prod.mk.injEq .. ▸ h
        simp only [← h2, List.length_drop]
        omega

/-- The chunk loop of `DockerService._demultiplex_docker_stream`: append each
chunk to the buffer, peel off all complete frames, and at end of stream emit
any residual bytes as a final stdout message. -/
def demuxChunks : List Nat → List (List Nat) → List (LogStream × String)
  | buffer, [] => if buffer.isEmpty then [] else [(.stdout, decodeUtf8Ignore buffer)]
  | buffer, chunk :: chunks =>
    let (fs, b') := drainBuffer (buffer ++ chunk)
    fs ++ demuxChunks b' chunks

/-- `DockerService._demultiplex_docker_stream`, with the inbound generator of
byte chunks modelled as a list of byte strings. -/
def demultiplex_docker_stream (chunks : List (List Nat)) : List (LogStream × String) :=
  demuxChunks [] chunks

/-! ## Log frame encoding (the daemon's wire format) -/

/-- A log frame: a stream-type byte and a payload. -/
structure Frame where
  stream_type : Nat
  payload : List Nat
deriving DecidableEq, Repr

/-- A valid frame: the stream type fits in a byte and the payload length fits
in an unsigned 32-bit big-endian length field. -/
def Frame.wf (f : Frame) : Prop :=
  f.stream_type < 256 ∧ f.payload.length < 2 ^ 32

/-- The 8-byte frame header: stream-type byte, three padding bytes, and the
payload length as a big-endian unsigned 32-bit integer. -/
def encodeHeader (t len : Nat) : List Nat :=
  [t, 0, 0, 0, len / 2 ^ 24 % 256, len / 2 ^ 16 % 256, len / 2 ^ 8 % 256, len % 256]

/-- A frame on the wire: header followed by the payload bytes. -/
def encodeFrame (f : Frame) : List Nat :=
  encodeHeader f.stream_type f.payload.length ++ f.payload

/-- A buffer is stuck when no complete frame can be parsed from it. -/
def Stuck (b : List Nat) : Prop := parse_one_frame b = (none, b)

/-- Feeding a byte string to the demultiplexer as one single chunk:
peel all complete frames, then emit any residual bytes as stdout. -/
def demuxWhole (b : List Nat) : List (LogStream × String) :=
  (drainBuffer b).1 ++
    (if (drainBuffer b).2.isEmpty then [] else
      [(.stdout, decodeUtf8Ignore (drainBuffer b).2)])


/-! ## Driver and collaborator oracles (`IDockerService`, `IScmService`)

The service layer interacts with the container daemon only through
`IDockerService`; a run's interaction is modelled by an oracle recording what
each driver call returns (`.error` models a raised `DockerError`).
Per-step driver calls are indexed by the step's position in the pipeline. -/

/-- Outcome of consuming one step's log generator
(`_stream_logs_and_get_exit_code` over `run_command_in_container` or
`exec_in_container`): the `(stream, line)` pairs yielded before the generator
finished or raised, and either the final exit code or a `DockerError`. -/
structure StepOutcome where
  logs : List (LogStream × String)
  result : Except String Int

/-- The behaviour of the `IDockerService` collaborator during one run. -/
structure DockerOracle where
  image_exists : String → Except String Bool
  pull_image : String → Except String Unit
  calculate_dockerfile_hash : String → Except String String
  count_dockerfile_steps : String → Except String Nat
  build_image : String → String → List (Nat × String) × Except String Unit
  run_command : Nat → StepOutcome
  exec_command : Nat → StepOutcome
  start_persistent_container : Except String String

/-- The source-control collaborator (`IScmService`) state. -/
structure ScmState where
  current_branch : String
  staged_commit_message : String

/-- Repository location: `git_root` path and its base name. -/
structure RunContext where
  git_root : String
  repo_name : String

/-- Python's `re.match(pattern, s)` — anchored at the start of `s` — and
`re.match(pattern, s, re.DOTALL)`, as abstract boolean matchers. -/
structure RegexSemantics where
  matchStart : String → String → Bool
  matchStartDotAll : String → String → Bool

/-! ## Image preparation (`CiExecutionService._prepare_*`) -/

/-- `CiExecutionService._prepare_from_dockerfile`: fingerprint the
dockerfile, build `tag = "hookci/{repo}:{hash}"`, short-circuit on a cache
hit, otherwise build while streaming progress events. -/
def prepare_from_dockerfile (o : DockerOracle) (ctx : RunContext)
    (dockerfile_rel_path : String) : List PipelineEvent × Option String :=
  let dockerfile_path := ctx.git_root ++ "/" ++ dockerfile_rel_path
  match o.calculate_dockerfile_hash dockerfile_path with
  | .error _ => ([], none)
  | .ok hash =>
    let tag := "hookci/" ++ ctx.repo_name ++ ":" ++ hash
    match o.image_exists tag with
    | .error _ => ([], none)
    | .ok true => ([], some tag)
    | .ok false =>
      match o.count_dockerfile_steps dockerfile_path with
      | .error _ => ([], none)
      | .ok total_steps =>
        let (lines, res) := o.build_image dockerfile_path tag
        let progress := lines.map fun sl => PipelineEvent.ImageBuildProgress sl.1 sl.2
        match res with
        | .ok _ =>
          (.ImageBuildStart dockerfile_path tag total_steps ::
             progress ++ [.ImageBuildEnd .SUCCESS], some tag)
        | .error _ =>
          (.ImageBuildStart dockerfile_path tag total_steps ::
             progress ++ [.ImageBuildEnd .FAILURE], none)

/-- `CiExecutionService._prepare_from_registry`: a `DockerError` from the
cache check is swallowed (with a warning) and the pull is attempted anyway. -/
def prepare_from_registry (o : DockerOracle) (image_name : String) :
    List PipelineEvent × Option String :=
  match o.image_exists image_name with
  | .ok true => ([], some image_name)
  | _ =>
    match o.pull_image image_name with
    | .ok _ => ([.ImagePullStart image_name, .ImagePullEnd .SUCCESS], some image_name)
    | .error _ => ([.ImagePullStart image_name, .ImagePullEnd .FAILURE], none)

/-- `CiExecutionService._prepare_docker_image`.  Python truthiness governs
the two `if` tests, so an empty-string `dockerfile` or `image` falls through;
with neither branch taken a `ConfigurationParseError` is raised (modelled as
`.error`). -/
def prepare_docker_image (o : DockerOracle) (ctx : RunContext)
    (config : Configuration) : Except String (List PipelineEvent × Option String) :=
  if strTruthy config.docker.dockerfile then
    .ok (prepare_from_dockerfile o ctx (config.docker.dockerfile.getD ""))
  else if strTruthy config.docker.image then
    .ok (prepare_from_registry o (config.docker.image.getD ""))
  else
    .error "ConfigurationParseError: No docker image or dockerfile was specified."

/-! ## Pipeline state machines (`_run_pipeline_standard`, `_run_pipeline_debug`) -/

/-- `LogLine` events produced from the driver's `(stream, line)` pairs
(`_stream_logs_and_get_exit_code`). -/
def logEvents (logs : List (LogStream × String)) (step_name : String) :
    List PipelineEvent :=
  logs.map fun sl => .LogLine sl.2 sl.1 step_name

/-- The step loop of `CiExecutionService._run_pipeline_standard`, including
the trailing `PipelineEnd`.  A `DockerError` during a step yields
`StepEnd FAILURE, exit_code=1` then `PipelineEnd FAILURE`; a critical failure
breaks with `final_status = FAILURE`; a non-critical failure degrades
`final_status` to `WARNING` and continues. -/
def run_steps_standard (o : DockerOracle) (steps : List Step) (idx : Nat)
    (final_status : EventStatus) : List PipelineEvent :=
  match steps with
  | [] => [.PipelineEnd final_status]
  | step :: rest =>
    let out := o.run_command idx
    let evs := PipelineEvent.StepStart step :: logEvents out.logs step.name
    match out.result with
    | .error _ => evs ++ [.StepEnd step .FAILURE 1, .PipelineEnd .FAILURE]
    | .ok exit_code =>
      if exit_code = 0 then
        evs ++ [.StepEnd step .SUCCESS exit_code] ++
          run_steps_standard o rest (idx + 1) final_status
      else if step.critical then
        evs ++ [.StepEnd step .FAILURE exit_code, .PipelineEnd .FAILURE]
      else
        evs ++ [.StepEnd step .WARNING exit_code] ++
          run_steps_standard o rest (idx + 1)
            (if final_status ≠ .FAILURE then .WARNING else final_status)

/-- `CiExecutionService._run_pipeline_standard`.  The second component
records whether the generator completed normally (`.ok`) or raised. -/
def run_pipeline_standard (o : DockerOracle) (ctx : RunContext)
    (config : Configuration) : List PipelineEvent × Except String Unit :=
  let start := PipelineEvent.PipelineStart config.steps.length config.log_level
  match prepare_docker_image o ctx config with
  | .error e => ([start], .error e)
  | .ok (prep_events, none) => (start :: prep_events ++ [.PipelineEnd .FAILURE], .ok ())
  | .ok (prep_events, some _docker_image) =>
    (start :: prep_events ++ run_steps_standard o config.steps 0 .SUCCESS, .ok ())

/-- An element of a debug run's trace: an emitted event, or a call to
`stop_and_remove_container` with its container id. -/
inductive TraceItem where
  | event (e : PipelineEvent)
  | stop_and_remove (container_id : String)
deriving DecidableEq, Repr

/-- The events of a trace. -/
def traceEvents (tr : List TraceItem) : List PipelineEvent :=
  tr.filterMap fun it =>
    match it with
    | .event e => some e
    | .stop_and_remove _ => none

/-- The step loop of `CiExecutionService._run_pipeline_debug` (the body of
the `try` block): returns the trace of the loop and the `final_status` it
leaves behind.  A critical failure additionally emits `DebugShellStarting`
before breaking. -/
def run_steps_debug (o : DockerOracle) (container_id : String) (steps : List Step)
    (idx : Nat) (final_status : EventStatus) : List TraceItem × EventStatus :=
  match steps with
  | [] => ([], final_status)
  | step :: rest =>
    let out := o.exec_command idx
    let evs := TraceItem.event (.StepStart step) ::
      (logEvents out.logs step.name).map .event
    match out.result with
    | .error _ => (evs ++ [.event (.StepEnd step .FAILURE 1)], .FAILURE)
    | .ok exit_code =>
      if exit_code = 0 then
        let (tr, fin) := run_steps_debug o container_id rest (idx + 1) final_status
        (evs ++ [.event (.StepEnd step .SUCCESS exit_code)] ++ tr, fin)
      else if step.critical then
        (evs ++ [.event (.StepEnd step .FAILURE exit_code),
                 .event (.DebugShellStarting step container_id)], .FAILURE)
      else
        let final' : EventStatus :=
          if final_status ≠ .FAILURE then .WARNING else final_status
        let (tr, fin) := run_steps_debug o container_id rest (idx + 1) final'
        (evs ++ [.event (.StepEnd step .WARNING exit_code)] ++ tr, fin)

/-- `CiExecutionService._run_pipeline_debug`: start a persistent container,
run all steps through `exec`, and — whether the loop completed or broke —
`stop_and_remove` the container in the `finally` block before emitting
`PipelineEnd`. -/
def run_pipeline_debug (o : DockerOracle) (ctx : RunContext)
    (config : Configuration) : List TraceItem × Except String Unit :=
  let start := TraceItem.event (.PipelineStart config.steps.length config.log_level)
  match prepare_docker_image o ctx config with
  | .error e => ([start], .error e)
  | .ok (prep_events, none) =>
    (start :: prep_events.map .event ++ [.event (.PipelineEnd .FAILURE)], .ok ())
  | .ok (prep_events, some _docker_image) =>
    match o.start_persistent_container with
    | .error _ =>
      (start :: prep_events.map .event ++ [.event (.PipelineEnd .FAILURE)], .ok ())
    | .ok container_id =>
      let (tr, final_status) := run_steps_debug o container_id config.steps 0 .SUCCESS
      (start :: prep_events.map .event ++ tr ++
        [.stop_and_remove container_id, .event (.PipelineEnd final_status)], .ok ())

/-! ## Filter gate (`_should_run`, `_is_hook_enabled`, `_passes_filters`) -/

/-- `CiExecutionService._is_hook_enabled`. -/
def is_hook_enabled (hook_type : String) (config : Configuration) : Bool :=
  if hook_type = "pre-commit" && !config.hooks.pre_commit then false
  else if hook_type = "pre-push" && !config.hooks.pre_push then false
  else true

/-- `CiExecutionService._passes_filters`.  `filters.branches` is matched
against the current branch with `re.match` (anchored at the start);
`filters.commits` — only for `pre-commit` — against the staged commit message
with `re.match(..., re.DOTALL)`.  Empty-string patterns are falsy in Python
and disable the corresponding check. -/
def passes_filters (rx : RegexSemantics) (scm : ScmState) (hook_type : String)
    (config : Configuration) : Bool :=
  match config.filters with
  | none => true
  | some filters =>
    if strTruthy filters.branches &&
        !rx.matchStart (filters.branches.getD "") scm.current_branch then false
    else if hook_type = "pre-commit" && strTruthy filters.commits &&
        !rx.matchStartDotAll (filters.commits.getD "") scm.staged_commit_message then
      false
    else true

/-- `CiExecutionService._should_run`: a manual run (no hook type) always
proceeds; a hook-triggered run must pass the enabled flag and the filters. -/
def should_run (rx : RegexSemantics) (scm : ScmState) (hook_type : Option String)
    (config : Configuration) : Bool :=
  match hook_type with
  | none => true
  | some ht => is_hook_enabled ht config && passes_filters rx scm ht config

/-- `CiExecutionService.run`: the filter gate may skip with no events;
debug mode is forced off when a hook type is present; then one of the two
pipeline state machines runs. -/
def CiExecutionService.run (rx : RegexSemantics) (scm : ScmState) (o : DockerOracle)
    (ctx : RunContext) (hook_type : Option String) (debug : Bool)
    (config : Configuration) : List PipelineEvent × Except String Unit :=
  if !should_run rx scm hook_type config then ([], .ok ())
  else
    let debug := if debug && hook_type.isSome then false else debug
    if debug then
      let (tr, res) := run_pipeline_debug o ctx config
      (traceEvents tr, res)
    else run_pipeline_standard o ctx config

/-! ## Transient container execution (`DockerService.run_command_in_container`) -/

/-- A daemon call made by `run_command_in_container`. -/
inductive ContainerCall where
  | containers_run
  | remove (container_id : String) (force : Bool)
deriving DecidableEq, Repr

/-- Result of `client.containers.run(...)`. -/
inductive CreateResult where
  | created (container_id : String)
  | imageNotFound
  | apiError
deriving DecidableEq, Repr

/-- How one `run_command_in_container` generator run ends for its consumer. -/
inductive RunOutcome where
  | finished (exit_code : Int)
  | closed
  | raised (e : String)
deriving DecidableEq, Repr

/-- Environment of one `run_command_in_container` call: what the daemon does
at each interaction point.  `consumer_closes` models the consumer abandoning
the generator at a yield point (early cancellation); `stream_raises` models
an `APIError` out of the log stream. -/
structure TransientEnv where
  create : CreateResult
  stream_raises : Bool
  consumer_closes : Bool
  wait_result : Except Unit Int
  remove_result : Except Unit Unit

/-- `DockerService.run_command_in_container`, as the daemon calls it makes,
the `logger.warning` messages it emits, and the outcome its consumer sees.
The `finally` block runs `container.remove(force=True)` whenever the
container object was created — on normal completion, on an exception from
the log stream or `wait`, and on early generator close.  That call is not
wrapped in any `try`/`except` and is not logged, so when it raises, the
exception escapes to the caller (replacing any in-flight exception) and the
warning list stays empty.  (The `(stream, line)` pairs yielded before the
outcome are `demultiplex_docker_stream` of the daemon's chunks and are not
repeated here.) -/
def run_command_in_container (env : TransientEnv) :
    List ContainerCall × List String × RunOutcome :=
  match env.create with
  | .imageNotFound => ([.containers_run], [], .raised "DockerError: image not found")
  | .apiError => ([.containers_run], [], .raised "DockerError: API error")
  | .created cid =>
    let calls := [ContainerCall.containers_run, .remove cid true]
    if env.consumer_closes then
      match env.remove_result with
      | .ok _ => (calls, [], .closed)
      | .error _ => (calls, [], .raised "APIError: remove failed")
    else if env.stream_raises then
      match env.remove_result with
      | .ok _ => (calls, [], .raised "DockerError: API error")
      | .error _ => (calls, [], .raised "APIError: remove failed")
    else
      match env.wait_result with
      | .error _ =>
        match env.remove_result with
        | .ok _ => (calls, [], .raised "DockerError: API error")
        | .error _ => (calls, [], .raised "APIError: remove failed")
      | .ok code =>
        match env.remove_result with
        | .ok _ => (calls, [], .finished code)
        | .error _ => (calls, [], .raised "APIError: remove failed")

/-! ## Event classification helpers -/

/-- Is this event a `PipelineEnd`? -/
def isPipelineEnd : PipelineEvent → Bool
  | .PipelineEnd _ => true
  | _ => false

/-- Is this event a `StepEnd`? -/
def isStepEnd : PipelineEvent → Bool
  | .StepEnd _ _ _ => true
  | _ => false

/-- The statuses of the `StepEnd` events of a stream, in order. -/
def stepEndStatuses (evs : List PipelineEvent) : List EventStatus :=
  evs.filterMap fun e =>
    match e with
    | .StepEnd _ status _ => some status
    | _ => none

/-- The statuses of the `PipelineEnd` events of a stream, in order. -/
def pipelineEndStatuses (evs : List PipelineEvent) : List EventStatus :=
  evs.filterMap fun e =>
    match e with
    | .PipelineEnd status => some status
    | _ => none

/-- Aggregate verdict of a list of step statuses: `FAILURE` dominates, then
`WARNING`, otherwise `SUCCESS`. -/
def aggregate (l : List EventStatus) : EventStatus :=
  if .FAILURE ∈ l then .FAILURE else if .WARNING ∈ l then .WARNING else .SUCCESS

/-! ## Concrete data used by counterexamples and witnesses -/

/-- A repository at `/repo`. -/
def ctx0 : RunContext := { git_root := "/repo", repo_name := "repo" }

/-- A source-control state. -/
def scm0 : ScmState := { current_branch := "main", staged_commit_message := "feat: x" }

/-- A regex oracle on which every pattern matches. -/
def rx0 : RegexSemantics :=
  { matchStart := fun _ _ => true, matchStartDotAll := fun _ _ => true }

/-- A regex oracle on which no pattern matches. -/
def rxNone : RegexSemantics :=
  { matchStart := fun _ _ => false, matchStartDotAll := fun _ _ => false }

/-- A driver for which everything succeeds and all images are cached. -/
def oracleGreen : DockerOracle :=
  { image_exists := fun _ => .ok true
    pull_image := fun _ => .ok ()
    calculate_dockerfile_hash := fun _ => .ok "abc123def456"
    count_dockerfile_steps := fun _ => .ok 2
    build_image := fun _ _ => ([], .ok ())
    run_command := fun _ => { logs := [], result := .ok 0 }
    exec_command := fun _ => { logs := [], result := .ok 0 }
    start_persistent_container := .ok "cid-1" }

/-- A driver for which the registry image is absent and the pull fails. -/
def oraclePullFail : DockerOracle :=
  { oracleGreen with
    image_exists := fun _ => .ok false
    pull_image := fun _ => .error "DockerError" }

/-- A driver whose first step exits 0 and whose second step exits 3. -/
def oracleMixed : DockerOracle :=
  { oracleGreen with
    run_command := fun i =>
      if i = 0 then { logs := [(.stdout, "hi")], result := .ok 0 }
      else { logs := [], result := .ok 3 }
    exec_command := fun i =>
      if i = 0 then { logs := [], result := .ok 0 }
      else { logs := [], result := .ok 3 } }

/-- A configuration pulling a registry image, with one critical step. -/
def cfgPull : Configuration :=
  { version := "2", docker := { image := some "busybox:latest" },
    steps := [{ name := "ok", command := "true" }] }

/-- A configuration whose `dockerfile` is the empty string: it passes the
pydantic validator (the field is not `None`) but is falsy in Python. -/
def cfgBlankDockerfile : Configuration :=
  { version := "2", docker := { dockerfile := some "" } }

/-- A configuration with the `pre-commit` hook disabled. -/
def cfgHookDisabled : Configuration :=
  { version := "2", docker := { image := some "busybox:latest" },
    hooks := { pre_commit := false, pre_push := true } }

/-- A two-step configuration whose second step is non-critical. -/
def cfgTwoSteps : Configuration :=
  { version := "2", docker := { image := some "busybox:latest" },
    steps := [{ name := "a", command := "true" },
              { name := "b", command := "false", critical := false }] }

/-- A dockerfile-based configuration. -/
def cfgDockerfile : Configuration :=
  { version := "2", docker := { dockerfile := some "Dockerfile" },
    steps := [{ name := "ok", command := "true" }] }

/-- A transient-container environment in which the command finishes with exit
code 0 but `container.remove(force=True)` raises. -/
def envCleanupFailure : TransientEnv :=
  { create := .created "c-42"
    stream_raises := false
    consumer_closes := false
    wait_result := .ok 0
    remove_result := .error () }

/-- A frame carrying `"hi"` on stdout. -/
def frameHi : Frame := { stream_type := 1, payload := [104, 105] }

/-- The bytes of `frameHi` split across chunk boundaries that do not align
with the frame structure. -/
def misalignedChunks : List (List Nat) := [[1, 0], [0, 0, 0, 0], [0, 2, 104], [105]]

/-- A complete frame whose 1-byte payload `0xFF` is not valid UTF-8. -/
def frameInvalidByte : List Nat := [1, 0, 0, 0, 0, 0, 0, 1, 255]

/-! ## Demultiplexer lemmas -/

/-- Decoding an encoded header recovers the stream type and length. -/
theorem decodeHeader_encodeHeader (t len : Nat) (hlen : len < 2 ^ 32) :
    decodeHeader (encodeHeader t len) = some (t, len) := by
  simp only [decodeHeader, encodeHeader, Option.some.injEq, Prod.mk.injEq, true_and]
  omega

/-- Any 8-byte header decodes successfully: `struct.unpack(">BxxxL", _)`
raises only on a buffer whose size differs from 8. -/
theorem decodeHeader_length_eight (b : List Nat) (h : b.length = 8) :
    ∃ t len, decodeHeader b = some (t, len) := by
  rcases b with _ | ⟨x0, b⟩; · simp at h
  rcases b with _ | ⟨x1, b⟩; · simp at h
  rcases b with _ | ⟨x2, b⟩; · simp at h
  rcases b with _ | ⟨x3, b⟩; · simp at h
  rcases b with _ | ⟨x4, b⟩; · simp at h
  rcases b with _ | ⟨x5, b⟩; · simp at h
  rcases b with _ | ⟨x6, b⟩; · simp at h
  rcases b with _ | ⟨x7, b⟩; · simp at h
  simp only [List.length_cons] at h
  obtain rfl : b = [] := List.length_eq_zero.mp (by omega)
  exact ⟨x0, _, rfl⟩

/-- When `parse_one_frame` yields no frame, it leaves the buffer unchanged. -/
theorem parse_one_frame_none {b r : List Nat}
    (h : parse_one_frame b = (none, r)) : r = b := by
  unfold parse_one_frame at h
  split at h
  · exact ((Prod.mk.injEq ..).mp h).2.symm
  · split at h
    · exact absurd ((Prod.mk.injEq ..).mp h).1 (by simp)
    · split at h
      · exact ((Prod.mk.injEq ..).mp h).2.symm
      · exact absurd ((Prod.mk.injEq ..).mp h).1 (by simp)

/-- Characterization of `parse_one_frame` on a buffer with a decodable
header (the malformed-header branch is bypassed). -/
theorem parse_one_frame_eq (b : List Nat) (h8 : ¬ b.length < 8) {t len : Nat}
    (hdec : decodeHeader (b.take 8) = some (t, len)) :
    parse_one_frame b =
      if b.length < 8 + len then (none, b)
      else
        (some ((if t = 2 then .stderr else .stdout),
               decodeUtf8Ignore ((b.drop 8).take len)),
         b.drop (8 + len)) := by
  unfold parse_one_frame
  rw [if_neg h8, hdec]

/-- Parses that find a complete frame are unaffected by bytes appended after
the buffer: the frame is unchanged and the extra bytes land in the rest. -/
theorem parse_one_frame_append {b r : List Nat} {f : LogStream × String}
    (h : parse_one_frame b = (some f, r)) (e : List Nat) :
    parse_one_frame (b ++ e) = (some f, r ++ e) := by
  by_cases h8 : b.length < 8
  · unfold parse_one_frame at h
    rw [if_pos h8] at h
    exact absurd ((Prod.mk.injEq ..).mp h).1 (by simp)
  obtain ⟨t, len, hdec⟩ := decodeHeader_length_eight (b.take 8)
    (by simp only [List.length_take]; omega)
  rw [parse_one_frame_eq b h8 hdec] at h
  have hge : 8 ≤ b.length := by omega
  have h8e : ¬ (b ++ e).length < 8 := by simp only [List.length_append]; omega
  have hdece : decodeHeader ((b ++ e).take 8) = some (t, len) := by
    rw [List.take_append_of_le_length hge]; exact hdec
  rw [parse_one_frame_eq (b ++ e) h8e hdece]
  split at h
  · exact absurd ((Prod.mk.injEq ..).mp h).1 (by simp)
  rename_i hfull
  have hfulle : ¬ (b ++ e).length < 8 + len := by simp only [List.length_append]; omega
  rw [if_neg hfulle]
  have hcb : ((b ++ e).drop 8).take len = (b.drop 8).take len := by
    rw [List.drop_append_of_le_length hge]
    exact List.take_append_of_le_length (by simp only [List.length_drop]; omega)
  have hrem : (b ++ e).drop (8 + len) = b.drop (8 + len) ++ e :=
    List.drop_append_of_le_length (by omega)
  obtain ⟨h1, h2⟩ := (Prod.mk.injEq ..).mp h
  rw [hcb, hrem, h1, h2]

/-- Unfolding `drainBuffer` when no frame parses. -/
theorem drainBuffer_parse_none {b b' : List Nat}
    (h : parse_one_frame b = (none, b')) : drainBuffer b = ([], b') := by
  rw [drainBuffer.eq_def]
  split
  · rename_i heq
    rw [h] at heq
    rw [((Prod.mk.injEq ..).mp heq).2]
  · rename_i f b'' heq
    rw [h] at heq
    exact absurd ((Prod.mk.injEq ..).mp heq).1 (by simp)

/-- Unfolding `drainBuffer` when a frame parses. -/
theorem drainBuffer_parse_some {b b' : List Nat} {f : LogStream × String}
    (h : parse_one_frame b = (some f, b')) :
    drainBuffer b = (f :: (drainBuffer b').1, (drainBuffer b').2) := by
  rw [drainBuffer.eq_def]
  split
  · rename_i heq
    rw [h] at heq
    exact absurd ((Prod.mk.injEq ..).mp heq).1 (by simp)
  · rename_i f' b'' heq
    rw [h] at heq
    obtain ⟨h1, h2⟩ := (Prod.mk.injEq ..).mp heq
    obtain rfl : f = f' := Option.some.inj h1
    obtain rfl : b' = b'' := h2
    cases hdb : drainBuffer b' with
    | mk fs r => rfl

/-- The buffer left over by the frame-peeling loop is stuck. -/
theorem drainBuffer_rest_stuck (b : List Nat) : Stuck (drainBuffer b).2 := by
  induction b using drainBuffer.induct with
  | case1 b b' h =>
    rw [drainBuffer_parse_none h]
    obtain rfl := parse_one_frame_none h
    exact h
  | case2 b f b' h fs r hdrain ih =>
    rw [drainBuffer_parse_some h]
    simpa [hdrain] using ih

/-- Peeling frames from `b ++ e` first peels everything `b` alone yields,
then continues from the leftover buffer extended by `e`. -/
theorem drainBuffer_append (b e : List Nat) :
    drainBuffer (b ++ e) =
      ((drainBuffer b).1 ++ (drainBuffer ((drainBuffer b).2 ++ e)).1,
       (drainBuffer ((drainBuffer b).2 ++ e)).2) := by
  induction b using drainBuffer.induct with
  | case1 b b' h =>
    obtain rfl := parse_one_frame_none h
    rw [drainBuffer_parse_none h]
    simp
  | case2 b f b' h fs r hdrain ih =>
    rw [drainBuffer_parse_some h, drainBuffer_parse_some (parse_one_frame_append h e)]
    simp only [hdrain] at ih ⊢
    rw [ih]
    simp

/-- Starting from a stuck buffer, the chunked demultiplexer computes the same
sequence as processing all remaining bytes in one chunk. -/
theorem demuxChunks_eq_demuxWhole (cs : List (List Nat)) :
    ∀ b : List Nat, Stuck b → demuxChunks b cs = demuxWhole (b ++ cs.flatten) := by
  induction cs with
  | nil =>
    intro b hb
    simp only [demuxChunks, List.flatten_nil, List.append_nil, demuxWhole,
      drainBuffer_parse_none hb]
    simp
  | cons c cs ih =>
    intro b hb
    simp only [demuxChunks, demuxWhole, List.flatten_cons, ← List.append_assoc]
    rw [drainBuffer_append (b ++ c) cs.flatten]
    have hstuck := drainBuffer_rest_stuck (b ++ c)
    have := ih (drainBuffer (b ++ c)).2 hstuck
    simp only [demuxWhole] at this
    rw [this]
    simp

/-- The empty buffer is stuck. -/
theorem stuck_nil : Stuck ([] : List Nat) := by
  unfold Stuck parse_one_frame
  simp

/-- The chunked demultiplexer depends only on the concatenation of chunks. -/
theorem demultiplex_docker_stream_eq_demuxWhole (cs : List (List Nat)) :
    demultiplex_docker_stream cs = demuxWhole cs.flatten := by
  have := demuxChunks_eq_demuxWhole cs [] stuck_nil
  simpa [demultiplex_docker_stream] using this

/-! ## Claim C10: the malformed-header fallback is unreachable -/

/-- **C10.** For every input buffer holding at least 8 bytes, decoding the
fixed 8-byte header (`struct.unpack(">BxxxL", buffer[:8])`) never raises, so
`_parse_one_frame` is fully described by the decoded header — wait for the
payload or emit the complete frame — and its malformed-header fallback
branch (which would yield the whole remaining buffer as one stdout message
and clear it) is unreachable. -/
theorem malformed_header_branch_unreachable (b : List Nat) (h8 : 8 ≤ b.length) :
    ∃ t len, decodeHeader (b.take 8) = some (t, len) ∧
      parse_one_frame b =
        if b.length < 8 + len then (none, b)
        else
          (some ((if t = 2 then .stderr else .stdout),
                 decodeUtf8Ignore ((b.drop 8).take len)),
           b.drop (8 + len)) := by
  obtain ⟨t, len, hdec⟩ := decodeHeader_length_eight (b.take 8)
    (by simp only [List.length_take]; omega)
  exact ⟨t, len, hdec, parse_one_frame_eq b (by omega) hdec⟩

/-- Witness for C10 at the concrete 9-byte buffer `[1,0,0,0,0,0,0,1,255]`. -/
theorem malformed_header_branch_unreachable_witness :
    8 ≤ frameInvalidByte.length ∧
    ∃ t len, decodeHeader (frameInvalidByte.take 8) = some (t, len) ∧
      parse_one_frame frameInvalidByte =
        if frameInvalidByte.length < 8 + len then (none, frameInvalidByte)
        else
          (some ((if t = 2 then .stderr else .stdout),
                 decodeUtf8Ignore ((frameInvalidByte.drop 8).take len)),
           frameInvalidByte.drop (8 + len)) :=
  ⟨by decide, malformed_header_branch_unreachable frameInvalidByte (by decide)⟩

/-! ## Claim C7: payload decoding drops invalid bytes (it does not replace) -/

/-- **C7 (counterexample).** The claim says invalid byte sequences are
*replaced* rather than dropped.  On the complete frame whose payload is the
single invalid byte `0xFF`, `_parse_one_frame` yields the empty text — the
code decodes with `errors="ignore"`, which drops the byte — whereas a
replacing decode yields `"�"`. -/
theorem frame_payload_replace_counterexample :
    parse_one_frame frameInvalidByte = (some (.stdout, ""), []) ∧
    decodeUtf8Replace [255] = "�" ∧
    decodeUtf8Ignore [255] ≠ decodeUtf8Replace [255] := by
  refine ⟨by decide, by decide, by decide⟩

/-- **C7 (amended).** In log-frame demultiplexing, for every complete frame,
the payload bytes are decoded as UTF-8 with invalid byte sequences dropped
(`errors="ignore"`) — not replaced — before being yielded as a
`(stream, text)` pair. -/
theorem frame_payload_decoded_utf8_ignore (f : Frame) (rest : List Nat)
    (hwf : f.wf) :
    parse_one_frame (encodeFrame f ++ rest) =
      (some ((if f.stream_type = 2 then .stderr else .stdout),
             decodeUtf8Ignore f.payload), rest) := by
  obtain ⟨-, hlen⟩ := hwf
  have hassoc : encodeFrame f ++ rest =
      encodeHeader f.stream_type f.payload.length ++ (f.payload ++ rest) := by
    simp [encodeFrame, List.append_assoc]
  have hhlen : (encodeHeader f.stream_type f.payload.length).length = 8 := rfl
  have h8 : ¬ (encodeFrame f ++ rest).length < 8 := by
    rw [hassoc]
    simp only [List.length_append, hhlen]
    omega
  have htake : (encodeFrame f ++ rest).take 8 =
      encodeHeader f.stream_type f.payload.length := by
    rw [hassoc, show (8 : Nat) = (encodeHeader f.stream_type f.payload.length).length
      from hhlen.symm]
    exact List.take_left _ _
  have hdec : decodeHeader ((encodeFrame f ++ rest).take 8) =
      some (f.stream_type, f.payload.length) := by
    rw [htake]
    exact decodeHeader_encodeHeader _ _ hlen
  rw [parse_one_frame_eq _ h8 hdec]
  have hlen2 : ¬ (encodeFrame f ++ rest).length < 8 + f.payload.length := by
    rw [hassoc]
    simp only [List.length_append, hhlen]
    omega
  rw [if_neg hlen2]
  have hdrop : (encodeFrame f ++ rest).drop 8 = f.payload ++ rest := by
    rw [hassoc, show (8 : Nat) = (encodeHeader f.stream_type f.payload.length).length
      from hhlen.symm]
    exact List.drop_left _ _
  have htakeP : ((encodeFrame f ++ rest).drop 8).take f.payload.length = f.payload := by
    rw [hdrop]
    exact List.take_left _ _
  have hdropAll : (encodeFrame f ++ rest).drop (8 + f.payload.length) = rest := by
    rw [← List.drop_drop, hdrop]
    exact List.drop_left _ _
  rw [htakeP, hdropAll]

/-- Witness for the amended C7 at the concrete frame `frameHi` followed by a
stray byte. -/
theorem frame_payload_decoded_utf8_ignore_witness :
    frameHi.wf ∧
    parse_one_frame (encodeFrame frameHi ++ [7]) =
      (some ((if frameHi.stream_type = 2 then .stderr else .stdout),
             decodeUtf8Ignore frameHi.payload), [7]) :=
  ⟨by constructor <;> decide, frame_payload_decoded_utf8_ignore frameHi [7]
    (by constructor <;> decide)⟩

/-! ## Claim C5: demultiplexing is invariant under re-chunking -/

/-- **C5.** For every finite sequence of valid log frames and every way of
partitioning the concatenated bytes into chunks, the demultiplexer yields
the same `(stream, text)` sequence as for the frame-aligned partition. -/
theorem demux_chunking_invariant (frames : List Frame) (chunks : List (List Nat))
    (hwf : ∀ f ∈ frames, f.wf)
    (hbytes : chunks.flatten = (frames.map encodeFrame).flatten) :
    demultiplex_docker_stream chunks =
      demultiplex_docker_stream (frames.map encodeFrame) := by
  rw [demultiplex_docker_stream_eq_demuxWhole, demultiplex_docker_stream_eq_demuxWhole,
    hbytes]

/-- Witness for C5: the single frame `frameHi` cut into four chunks none of
which respects the frame boundary. -/
theorem demux_chunking_invariant_witness :
    (∀ f ∈ [frameHi], f.wf) ∧
    misalignedChunks.flatten = ([frameHi].map encodeFrame).flatten ∧
    demultiplex_docker_stream misalignedChunks =
      demultiplex_docker_stream ([frameHi].map encodeFrame) :=
  ⟨by intro f hf; rw [List.mem_singleton.mp hf]; constructor <;> decide,
   by decide,
   demux_chunking_invariant [frameHi] misalignedChunks
     (by intro f hf; rw [List.mem_singleton.mp hf]; constructor <;> decide)
     (by decide)⟩

/-! ## Claim C8: hot-cache hit emits no events -/

/-- **C8.** For every recipe-based image preparation where an image with tag
`hookci/{repo_basename}:{recipe_fingerprint}` already exists locally,
`_prepare_from_dockerfile` returns that tag immediately and emits no events
at all for that preparation phase (in particular no `ImageBuildStart`,
`ImageBuildProgress` or `ImageBuildEnd`). -/
theorem hot_cache_hit_no_events (o : DockerOracle) (ctx : RunContext)
    (rel hash tag : String)
    (hh : o.calculate_dockerfile_hash (ctx.git_root ++ "/" ++ rel) = .ok hash)
    (htag : tag = "hookci/" ++ ctx.repo_name ++ ":" ++ hash)
    (hex : o.image_exists tag = .ok true) :
    prepare_from_dockerfile o ctx rel = ([], some tag) := by
  subst htag
  simp only [prepare_from_dockerfile, hh, hex]

/-- Witness for C8: a cached build for `ctx0` under `oracleGreen`. -/
theorem hot_cache_hit_no_events_witness :
    prepare_from_dockerfile oracleGreen ctx0 "Dockerfile" =
      ([], some "hookci/repo:abc123def456") :=
  hot_cache_hit_no_events oracleGreen ctx0 "Dockerfile" "abc123def456"
    "hookci/repo:abc123def456" rfl (by decide) rfl

/-! ## Claim C6: transient-container removal -/

/-- **C6 (code bug).** `run_command_in_container` does attempt container
removal on every exit path (the `finally` block), but a failure of the
removal itself is *not* logged and *does* propagate: `container.remove
(force=True)` is not wrapped in any `try`/`except`.  At the failing input —
a run whose command finishes with exit code 0 but whose `remove` raises —
the embedded code produces no warning log and raises to the caller, where
the claim (and the repository's own test
`test_run_command_cleanup_failure_is_logged`) requires a logged warning and
a normal return of the exit code. -/
theorem transient_cleanup_failure_propagates :
    run_command_in_container envCleanupFailure =
      ([.containers_run, .remove "c-42" true], [], .raised "APIError: remove failed") :=
  rfl

/-! ## Claim C9: debug mode stops and removes its container exactly once -/

/-- The debug step loop itself never calls `stop_and_remove`; cleanup
happens only in the `finally` block of `_run_pipeline_debug`. -/
theorem run_steps_debug_no_stop (o : DockerOracle) (cid : String) :
    ∀ (steps : List Step) (idx : Nat) (fin : EventStatus) (c : String),
      TraceItem.stop_and_remove c ∉ (run_steps_debug o cid steps idx fin).1 := by
  intro steps
  induction steps with
  | nil =>
    intro idx fin c
    simp [run_steps_debug]
  | cons step rest ih =>
    intro idx fin c
    simp only [run_steps_debug]
    cases hres : (o.exec_command idx).result with
    | error e =>
      simp [logEvents]
    | ok code =>
      by_cases h0 : code = 0
      · cases htr : run_steps_debug o cid rest (idx + 1) fin with
        | mk tr fin' =>
          have := ih (idx + 1) fin c
          rw [htr] at this
          simp only [h0, if_pos rfl] at *
          simp [htr, logEvents]
          exact fun h => this h
      · by_cases hcrit : step.critical
        · simp [h0, hcrit, logEvents]
        · cases htr : run_steps_debug o cid rest (idx + 1)
              (if fin ≠ .FAILURE then .WARNING else fin) with
          | mk tr fin' =>
            have := ih (idx + 1) (if fin ≠ .FAILURE then .WARNING else fin) c
            rw [htr] at this
            simp [h0, hcrit, htr, logEvents]
            exact fun h => this h

/-- **C9.** In debug mode, for every run in which `start_persistent_container`
returns a container id, `stop_and_remove` is invoked exactly once with that
same container id, immediately before `PipelineEnd`, on every exit path of
the step loop (normal completion, critical-failure break,
infrastructure-error break). -/
theorem debug_stop_and_remove_exactly_once (o : DockerOracle) (ctx : RunContext)
    (cfg : Configuration) (prep : List PipelineEvent) (img cid : String)
    (hprep : prepare_docker_image o ctx cfg = .ok (prep, some img))
    (hstart : o.start_persistent_container = .ok cid) :
    ∃ pre fin, (run_pipeline_debug o ctx cfg).1 =
        pre ++ [.stop_and_remove cid, .event (.PipelineEnd fin)] ∧
      ∀ c, TraceItem.stop_and_remove c ∉ pre := by
  cases htr : run_steps_debug o cid cfg.steps 0 .SUCCESS with
  | mk tr fin =>
    refine ⟨.event (.PipelineStart cfg.steps.length cfg.log_level) ::
      prep.map .event ++ tr, fin, ?_, ?_⟩
    · simp only [run_pipeline_debug, hprep, hstart, htr]
    · intro c hc
      have htail := run_steps_debug_no_stop o cid cfg.steps 0 .SUCCESS c
      rw [htr] at htail
      rcases List.mem_cons.mp hc with h | h
      · exact absurd h (by simp)
      rcases List.mem_append.mp h with h | h
      · obtain ⟨e, -, he⟩ := List.mem_map.mp h
        exact absurd he (by simp)
      · exact htail h

/-- Witness for C9: a cached registry image, one green step, container
`cid-1`. -/
theorem debug_stop_and_remove_exactly_once_witness :
    ∃ pre fin, (run_pipeline_debug oracleGreen ctx0 cfgPull).1 =
        pre ++ [.stop_and_remove "cid-1", .event (.PipelineEnd fin)] ∧
      ∀ c, TraceItem.stop_and_remove c ∉ pre :=
  debug_stop_and_remove_exactly_once oracleGreen ctx0 cfgPull [] "busybox:latest"
    "cid-1" rfl rfl

/-! ## Claim C4: the filter gate -/

/-- **C4.** For every hook-triggered run in which the filter gate decides
skip, the returned event sequence is empty (no events at all); a run with no
hook type always proceeds; and the gate decides skip exactly when the hook's
enabled flag is false, or the branches regex fails to match the current
branch at its start, or — for pre-commit only — the commits regex (with
DOTALL) fails to match the staged commit message. -/
theorem filter_gate_skip (rx : RegexSemantics) (scm : ScmState) (o : DockerOracle)
    (ctx : RunContext) (cfg : Configuration) :
    (∀ ht dbg, should_run rx scm (some ht) cfg = false →
      CiExecutionService.run rx scm o ctx (some ht) dbg cfg = ([], .ok ())) ∧
    should_run rx scm none cfg = true ∧
    (∀ ht, should_run rx scm (some ht) cfg = false ↔
      ((ht = "pre-commit" ∧ cfg.hooks.pre_commit = false) ∨
       (ht = "pre-push" ∧ cfg.hooks.pre_push = false) ∨
       (∃ fl, cfg.filters = some fl ∧ strTruthy fl.branches = true ∧
         rx.matchStart (fl.branches.getD "") scm.current_branch = false) ∨
       (ht = "pre-commit" ∧ ∃ fl, cfg.filters = some fl ∧ strTruthy fl.commits = true ∧
         rx.matchStartDotAll (fl.commits.getD "") scm.staged_commit_message = false))) := by
  refine ⟨?_, rfl, ?_⟩
  · intro ht dbg h
    simp [CiExecutionService.run, h]
  · intro ht
    cases hf : cfg.filters with
    | none =>
      by_cases hpc : ht = "pre-commit" <;> by_cases hpp : ht = "pre-push" <;>
        cases hb1 : cfg.hooks.pre_commit <;> cases hb2 : cfg.hooks.pre_push <;>
          simp_all [should_run, is_hook_enabled, passes_filters]
    | some fl =>
      by_cases hpc : ht = "pre-commit" <;> by_cases hpp : ht = "pre-push" <;>
        cases hb1 : cfg.hooks.pre_commit <;> cases hb2 : cfg.hooks.pre_push <;>
          cases ht1 : strTruthy fl.branches <;>
          cases hm1 : rx.matchStart (fl.branches.getD "") scm.current_branch <;>
          cases ht2 : strTruthy fl.commits <;>
          cases hm2 : rx.matchStartDotAll (fl.commits.getD "")
            scm.staged_commit_message <;>
            simp_all [should_run, is_hook_enabled, passes_filters]

/-- Witness for C4: with no pattern matching and `pre-commit` disabled, the
hook run is skipped with no events. -/
theorem filter_gate_skip_witness :
    CiExecutionService.run rxNone scm0 oracleGreen ctx0 (some "pre-commit") false
      cfgHookDisabled = ([], .ok ()) ∧
    should_run rxNone scm0 none cfgHookDisabled = true :=
  ⟨(filter_gate_skip rxNone scm0 oracleGreen ctx0 cfgHookDisabled).1 "pre-commit" false
     (by decide),
   (filter_gate_skip rxNone scm0 oracleGreen ctx0 cfgHookDisabled).2.1⟩

/-! ## Event-stream helper lemmas -/

/-- `traceEvents` distributes over append. -/
theorem traceEvents_append (a b : List TraceItem) :
    traceEvents (a ++ b) = traceEvents a ++ traceEvents b :=
  List.filterMap_append a b _

/-- `traceEvents` of pure events recovers them. -/
theorem traceEvents_map_event (l : List PipelineEvent) :
    traceEvents (l.map .event) = l := by
  rw [traceEvents, List.filterMap_map]
  exact List.filterMap_some l

/-- `stepEndStatuses` distributes over append. -/
theorem stepEndStatuses_append (a b : List PipelineEvent) :
    stepEndStatuses (a ++ b) = stepEndStatuses a ++ stepEndStatuses b :=
  List.filterMap_append a b _

/-- `pipelineEndStatuses` distributes over append. -/
theorem pipelineEndStatuses_append (a b : List PipelineEvent) :
    pipelineEndStatuses (a ++ b) = pipelineEndStatuses a ++ pipelineEndStatuses b :=
  List.filterMap_append a b _

/-- Log lines carry no `StepEnd` status. -/
theorem stepEndStatuses_logEvents (l : List (LogStream × String)) (n : String) :
    stepEndStatuses (logEvents l n) = [] := by
  rw [stepEndStatuses, logEvents, List.filterMap_map]
  exact List.filterMap_eq_nil_iff.mpr fun a _ => rfl

/-- Log lines carry no `PipelineEnd` status. -/
theorem pipelineEndStatuses_logEvents (l : List (LogStream × String)) (n : String) :
    pipelineEndStatuses (logEvents l n) = [] := by
  rw [pipelineEndStatuses, logEvents, List.filterMap_map]
  exact List.filterMap_eq_nil_iff.mpr fun a _ => rfl

/-- A log-line event is neither a `StepEnd` nor a `PipelineEnd`. -/
theorem logEvents_shape (l : List (LogStream × String)) (n : String) :
    ∀ e ∈ logEvents l n, isStepEnd e = false ∧ isPipelineEnd e = false := by
  intro e he
  obtain ⟨sl, -, rfl⟩ := List.mem_map.mp he
  exact ⟨rfl, rfl⟩

/-- A status that is neither `FAILURE` nor `WARNING` is `SUCCESS`. -/
theorem eventStatus_eq_success {x : EventStatus}
    (h1 : x ≠ .FAILURE) (h2 : x ≠ .WARNING) : x = .SUCCESS := by
  cases x
  · rfl
  · exact absurd rfl h1
  · exact absurd rfl h2

/-- `aggregate` of one status is that status. -/
theorem aggregate_singleton (s : EventStatus) : aggregate [s] = s := by
  cases s <;> simp [aggregate]

/-- `aggregate` is `FAILURE` whenever `FAILURE` occurs. -/
theorem aggregate_of_mem_failure {l : List EventStatus} (h : .FAILURE ∈ l) :
    aggregate l = .FAILURE := by
  simp [aggregate, h]

/-- Inserting a `SUCCESS` after the head does not change the verdict. -/
theorem aggregate_insert_success (fin : EventStatus) (l : List EventStatus) :
    aggregate (fin :: .SUCCESS :: l) = aggregate (fin :: l) := by
  simp [aggregate]

/-- Degrading the accumulator to `WARNING` (unless it is `FAILURE`) is the
same as inserting a `WARNING` after the head. -/
theorem aggregate_insert_warning (fin : EventStatus) (l : List EventStatus) :
    aggregate ((if fin ≠ .FAILURE then .WARNING else fin) :: l) =
      aggregate (fin :: .WARNING :: l) := by
  cases fin <;> simp [aggregate]

/-- Characterization of `aggregate`: `SUCCESS` iff all statuses are
`SUCCESS`, `FAILURE` iff some status is `FAILURE`, `WARNING` otherwise. -/
theorem aggregate_status_iff (l : List EventStatus) :
    (aggregate l = .SUCCESS ↔ ∀ x ∈ l, x = .SUCCESS) ∧
    (aggregate l = .FAILURE ↔ .FAILURE ∈ l) ∧
    (aggregate l = .WARNING ↔ (¬ ∀ x ∈ l, x = .SUCCESS) ∧ .FAILURE ∉ l) := by
  by_cases hf : EventStatus.FAILURE ∈ l
  · have hnall : ¬ ∀ x ∈ l, x = EventStatus.SUCCESS := by
      intro hall
      exact absurd (hall _ hf) (by simp)
    simp [aggregate, hf, hnall]
  · by_cases hw : EventStatus.WARNING ∈ l
    · have hnall : ¬ ∀ x ∈ l, x = EventStatus.SUCCESS := by
        intro hall
        exact absurd (hall _ hw) (by simp)
      simp [aggregate, hf, hw, hnall]
    · have hall : ∀ x ∈ l, x = EventStatus.SUCCESS := fun x hx =>
        eventStatus_eq_success (fun h => hf (h ▸ hx)) (fun h => hw (h ▸ hx))
      simp only [aggregate, hf, hw, if_neg, ite_false, ite_true]
      simp [hall]
      exact hall

/-! ## Standard-mode step-loop lemmas -/

/-- The standard step loop is a `PipelineEnd`-free prefix followed by exactly
one final `PipelineEnd`. -/
theorem run_steps_standard_shape (o : DockerOracle) :
    ∀ (steps : List Step) (idx : Nat) (fin : EventStatus),
      ∃ pre s, run_steps_standard o steps idx fin = pre ++ [.PipelineEnd s] ∧
        ∀ e ∈ pre, isPipelineEnd e = false := by
  intro steps
  induction steps with
  | nil =>
    intro idx fin
    exact ⟨[], fin, rfl, by simp⟩
  | cons step rest ih =>
    intro idx fin
    cases hout : o.run_command idx with
    | mk logs res =>
      have hlogs := logEvents_shape logs step.name
      cases res with
      | error err =>
        refine ⟨.StepStart step :: logEvents logs step.name ++ [.StepEnd step .FAILURE 1],
          .FAILURE, ?_, ?_⟩
        · simp [run_steps_standard, hout]
        · intro e he
          rcases List.mem_cons.mp he with rfl | he
          · rfl
          rcases List.mem_append.mp he with he | he
          · exact (hlogs e he).2
          · rw [List.mem_singleton.mp he]
            rfl
      | ok code =>
        by_cases h0 : code = 0
        · obtain ⟨pre, s, hpre, hfree⟩ := ih (idx + 1) fin
          refine ⟨.StepStart step :: logEvents logs step.name ++
            [.StepEnd step .SUCCESS code] ++ pre, s, ?_, ?_⟩
          · simp [run_steps_standard, hout, h0, hpre]
          · intro e he
            rcases List.mem_cons.mp he with rfl | he
            · rfl
            rcases List.mem_append.mp he with he | he
            · rcases List.mem_append.mp he with he | he
              · exact (hlogs e he).2
              · rw [List.mem_singleton.mp he]
                rfl
            · exact hfree e he
        · by_cases hcrit : step.critical
          · refine ⟨.StepStart step :: logEvents logs step.name ++
              [.StepEnd step .FAILURE code], .FAILURE, ?_, ?_⟩
            · simp [run_steps_standard, hout, h0, hcrit]
            · intro e he
              rcases List.mem_cons.mp he with rfl | he
              · rfl
              rcases List.mem_append.mp he with he | he
              · exact (hlogs e he).2
              · rw [List.mem_singleton.mp he]
                rfl
          · obtain ⟨pre, s, hpre, hfree⟩ :=
              ih (idx + 1) (if fin = .FAILURE then fin else .WARNING)
            refine ⟨.StepStart step :: logEvents logs step.name ++
              [.StepEnd step .WARNING code] ++ pre, s, ?_, ?_⟩
            · simp [run_steps_standard, hout, h0, hcrit, hpre]
            · intro e he
              rcases List.mem_cons.mp he with rfl | he
              · rfl
              rcases List.mem_append.mp he with he | he
              · rcases List.mem_append.mp he with he | he
                · exact (hlogs e he).2
                · rw [List.mem_singleton.mp he]
                  rfl
              · exact hfree e he

/-- `stepEndStatuses` skips a non-`StepEnd` head. -/
theorem stepEndStatuses_cons_other (e : PipelineEvent) (l : List PipelineEvent)
    (h : isStepEnd e = false) : stepEndStatuses (e :: l) = stepEndStatuses l := by
  cases e <;> first | rfl | simp [isStepEnd] at h

/-- `stepEndStatuses` collects a `StepEnd` head. -/
theorem stepEndStatuses_cons_stepEnd (s : Step) (st : EventStatus) (ec : Int)
    (l : List PipelineEvent) :
    stepEndStatuses (.StepEnd s st ec :: l) = st :: stepEndStatuses l := rfl

/-- `pipelineEndStatuses` skips a non-`PipelineEnd` head. -/
theorem pipelineEndStatuses_cons_other (e : PipelineEvent) (l : List PipelineEvent)
    (h : isPipelineEnd e = false) : pipelineEndStatuses (e :: l) = pipelineEndStatuses l := by
  cases e <;> first | rfl | simp [isPipelineEnd] at h

/-- `pipelineEndStatuses` collects a `PipelineEnd` head. -/
theorem pipelineEndStatuses_cons_end (s : EventStatus) (l : List PipelineEvent) :
    pipelineEndStatuses (.PipelineEnd s :: l) = s :: pipelineEndStatuses l := rfl

/-- The status carried by the standard loop's `PipelineEnd` is the aggregate
of the incoming accumulator and the statuses of the `StepEnd` events the
loop emits. -/
theorem run_steps_standard_status (o : DockerOracle) :
    ∀ (steps : List Step) (idx : Nat) (fin : EventStatus),
      pipelineEndStatuses (run_steps_standard o steps idx fin) =
        [aggregate (fin :: stepEndStatuses (run_steps_standard o steps idx fin))] := by
  intro steps
  induction steps with
  | nil =>
    intro idx fin
    simp [run_steps_standard, pipelineEndStatuses, stepEndStatuses, aggregate_singleton]
  | cons step rest ih =>
    intro idx fin
    cases hout : o.run_command idx with
    | mk logs res =>
      cases res with
      | error err =>
        have hrw : run_steps_standard o (step :: rest) idx fin =
            .StepStart step :: (logEvents logs step.name ++
              [.StepEnd step .FAILURE 1, .PipelineEnd .FAILURE]) := by
          simp [run_steps_standard, hout]
        rw [hrw, stepEndStatuses_cons_other (.StepStart step) _ rfl, pipelineEndStatuses_cons_other (.StepStart step) _ rfl,
          stepEndStatuses_append, pipelineEndStatuses_append,
          stepEndStatuses_logEvents, pipelineEndStatuses_logEvents]
        simp [stepEndStatuses, pipelineEndStatuses, aggregate]
      | ok code =>
        by_cases h0 : code = 0
        · have hrw : run_steps_standard o (step :: rest) idx fin =
              .StepStart step :: (logEvents logs step.name ++
                ([.StepEnd step .SUCCESS code] ++
                  run_steps_standard o rest (idx + 1) fin)) := by
            simp [run_steps_standard, hout, h0]
          rw [hrw, stepEndStatuses_cons_other (.StepStart step) _ rfl, pipelineEndStatuses_cons_other (.StepStart step) _ rfl,
            stepEndStatuses_append, pipelineEndStatuses_append,
            stepEndStatuses_logEvents, pipelineEndStatuses_logEvents,
            stepEndStatuses_append, pipelineEndStatuses_append,
            show stepEndStatuses [.StepEnd step .SUCCESS code] = [.SUCCESS] from rfl,
            show pipelineEndStatuses [.StepEnd step .SUCCESS code] = [] from rfl]
          simp only [List.nil_append, List.cons_append]
          rw [ih (idx + 1) fin, aggregate_insert_success]
        · by_cases hcrit : step.critical
          · have hrw : run_steps_standard o (step :: rest) idx fin =
                .StepStart step :: (logEvents logs step.name ++
                  [.StepEnd step .FAILURE code, .PipelineEnd .FAILURE]) := by
              simp [run_steps_standard, hout, h0, hcrit]
            rw [hrw, stepEndStatuses_cons_other (.StepStart step) _ rfl, pipelineEndStatuses_cons_other (.StepStart step) _ rfl,
              stepEndStatuses_append, pipelineEndStatuses_append,
              stepEndStatuses_logEvents, pipelineEndStatuses_logEvents]
            simp [stepEndStatuses, pipelineEndStatuses, aggregate]
          · have hrw : run_steps_standard o (step :: rest) idx fin =
                .StepStart step :: (logEvents logs step.name ++
                  ([.StepEnd step .WARNING code] ++
                    run_steps_standard o rest (idx + 1)
                      (if fin = .FAILURE then fin else .WARNING))) := by
              simp [run_steps_standard, hout, h0, hcrit]
            rw [hrw, stepEndStatuses_cons_other (.StepStart step) _ rfl, pipelineEndStatuses_cons_other (.StepStart step) _ rfl,
              stepEndStatuses_append, pipelineEndStatuses_append,
              stepEndStatuses_logEvents, pipelineEndStatuses_logEvents,
              stepEndStatuses_append, pipelineEndStatuses_append,
              show stepEndStatuses [.StepEnd step .WARNING code] = [.WARNING] from rfl,
              show pipelineEndStatuses [.StepEnd step .WARNING code] = [] from rfl]
            simp only [List.nil_append, List.cons_append]
            rw [ih (idx + 1) (if fin = .FAILURE then fin else .WARNING)]
            have hw := aggregate_insert_warning fin
              (stepEndStatuses (run_steps_standard o rest (idx + 1)
                (if fin = .FAILURE then fin else .WARNING)))
            rw [show (if fin ≠ EventStatus.FAILURE then EventStatus.WARNING else fin) =
                (if fin = EventStatus.FAILURE then fin else EventStatus.WARNING) by
              by_cases hfin : fin = .FAILURE <;> simp [hfin]] at hw
            rw [hw]

/-- Classification of the `StepEnd` events of the standard loop, on runs
where every driver call returns an exit code. -/
theorem run_steps_standard_classify (o : DockerOracle)
    (hrun : ∀ i, ∃ c, (o.run_command i).result = .ok c) :
    ∀ (steps : List Step) (idx : Nat) (fin : EventStatus)
      (step : Step) (status : EventStatus) (ec : Int),
      PipelineEvent.StepEnd step status ec ∈ run_steps_standard o steps idx fin →
      (ec = 0 → status = .SUCCESS) ∧
      (ec ≠ 0 → step.critical = true → status = .FAILURE) ∧
      (ec ≠ 0 → step.critical = false → status = .WARNING) := by
  intro steps
  induction steps with
  | nil =>
    intro idx fin step status ec h
    simp [run_steps_standard] at h
  | cons s rest ih =>
    intro idx fin step status ec h
    obtain ⟨c, hc⟩ := hrun idx
    simp only [run_steps_standard, hc] at h
    by_cases h0 : c = 0
    · rw [if_pos h0] at h
      rcases List.mem_cons.mp h with heq | h
      · exact absurd heq (by simp)
      rcases List.mem_append.mp h with h | h
      · rcases List.mem_append.mp h with h | h
        · exact absurd (logEvents_shape _ _ _ h).1 (by simp [isStepEnd])
        · rw [List.mem_singleton] at h
          obtain ⟨rfl, rfl, rfl⟩ := (PipelineEvent.StepEnd.injEq ..).mp h
          exact ⟨fun _ => rfl, fun hne => (hne h0).elim, fun hne => (hne h0).elim⟩
      · exact ih (idx + 1) fin step status ec h
    · rw [if_neg h0] at h
      by_cases hcrit : s.critical
      · rw [if_pos hcrit] at h
        rcases List.mem_cons.mp h with heq | h
        · exact absurd heq (by simp)
        rcases List.mem_append.mp h with h | h
        · exact absurd (logEvents_shape _ _ _ h).1 (by simp [isStepEnd])
        rcases List.mem_cons.mp h with heq | h
        · obtain ⟨rfl, rfl, rfl⟩ := (PipelineEvent.StepEnd.injEq ..).mp heq
          exact ⟨fun h' => (h0 h').elim, fun _ _ => rfl,
            fun _ hcf => absurd hcrit (by simp [hcf])⟩
        · rw [List.mem_singleton] at h
          exact absurd h (by simp)
      · rw [if_neg hcrit] at h
        rcases List.mem_cons.mp h with heq | h
        · exact absurd heq (by simp)
        rcases List.mem_append.mp h with h | h
        · rcases List.mem_append.mp h with h | h
          · exact absurd (logEvents_shape _ _ _ h).1 (by simp [isStepEnd])
          · rw [List.mem_singleton] at h
            obtain ⟨rfl, rfl, rfl⟩ := (PipelineEvent.StepEnd.injEq ..).mp h
            exact ⟨fun h' => (h0 h').elim,
              fun _ hct => absurd hct (by simpa using hcrit), fun _ _ => rfl⟩
        · exact ih (idx + 1) _ step status ec h

/-! ## Debug-mode step-loop lemmas -/

/-- `traceEvents` keeps an event head. -/
theorem traceEvents_cons_event (e : PipelineEvent) (tr : List TraceItem) :
    traceEvents (.event e :: tr) = e :: traceEvents tr := rfl

/-- `traceEvents` drops a cleanup head. -/
theorem traceEvents_cons_stop (c : String) (tr : List TraceItem) :
    traceEvents (.stop_and_remove c :: tr) = traceEvents tr := rfl

/-- The debug step loop emits no `PipelineEnd` (it is emitted by
`_run_pipeline_debug` after the `finally` block). -/
theorem run_steps_debug_no_pipelineEnd (o : DockerOracle) (cid : String) :
    ∀ (steps : List Step) (idx : Nat) (fin : EventStatus),
      ∀ e ∈ traceEvents (run_steps_debug o cid steps idx fin).1,
        isPipelineEnd e = false := by
  intro steps
  induction steps with
  | nil =>
    intro idx fin e he
    simp [run_steps_debug, traceEvents] at he
  | cons step rest ih =>
    intro idx fin e he
    have hlogs := logEvents_shape (o.exec_command idx).logs step.name
    cases hres : (o.exec_command idx).result with
    | error err =>
      simp only [run_steps_debug, hres, List.cons_append, traceEvents_cons_event] at he
      rcases List.mem_cons.mp he with rfl | he
      · rfl
      rw [traceEvents_append, traceEvents_map_event] at he
      rcases List.mem_append.mp he with he | he
      · exact (hlogs e he).2
      · rw [show traceEvents [.event (.StepEnd step .FAILURE 1)] =
            [PipelineEvent.StepEnd step .FAILURE 1] from rfl] at he
        rw [List.mem_singleton.mp he]
        rfl
    | ok code =>
      simp only [run_steps_debug, hres] at he
      by_cases h0 : code = 0
      · rw [if_pos h0] at he
        cases htr : run_steps_debug o cid rest (idx + 1) fin with
        | mk tr fin' =>
          rw [htr] at he
          simp only [List.cons_append, traceEvents_cons_event] at he
          rcases List.mem_cons.mp he with rfl | he
          · rfl
          rw [traceEvents_append, traceEvents_append, traceEvents_map_event] at he
          rcases List.mem_append.mp he with he | he
          · rcases List.mem_append.mp he with he | he
            · exact (hlogs e he).2
            · rw [show traceEvents [.event (.StepEnd step .SUCCESS code)] =
                  [PipelineEvent.StepEnd step .SUCCESS code] from rfl] at he
              rw [List.mem_singleton.mp he]
              rfl
          · have := ih (idx + 1) fin e
            rw [htr] at this
            exact this he
      · rw [if_neg h0] at he
        by_cases hcrit : step.critical
        · rw [if_pos hcrit] at he
          simp only [List.cons_append, traceEvents_cons_event] at he
          rcases List.mem_cons.mp he with rfl | he
          · rfl
          rw [traceEvents_append, traceEvents_map_event] at he
          rcases List.mem_append.mp he with he | he
          · exact (hlogs e he).2
          · rw [show traceEvents [.event (.StepEnd step .FAILURE code),
                .event (.DebugShellStarting step cid)] =
                [PipelineEvent.StepEnd step .FAILURE code,
                 .DebugShellStarting step cid] from rfl] at he
            rcases List.mem_cons.mp he with rfl | he
            · rfl
            · rw [List.mem_singleton.mp he]
              rfl
        · rw [if_neg hcrit] at he
          cases htr : run_steps_debug o cid rest (idx + 1)
              (if fin ≠ .FAILURE then .WARNING else fin) with
          | mk tr fin' =>
            rw [htr] at he
            simp only [List.cons_append, traceEvents_cons_event] at he
            rcases List.mem_cons.mp he with rfl | he
            · rfl
            rw [traceEvents_append, traceEvents_append, traceEvents_map_event] at he
            rcases List.mem_append.mp he with he | he
            · rcases List.mem_append.mp he with he | he
              · exact (hlogs e he).2
              · rw [show traceEvents [.event (.StepEnd step .WARNING code)] =
                    [PipelineEvent.StepEnd step .WARNING code] from rfl] at he
                rw [List.mem_singleton.mp he]
                rfl
            · have := ih (idx + 1) (if fin ≠ .FAILURE then .WARNING else fin) e
              rw [htr] at this
              exact this he

/-- The status the debug loop leaves behind is the aggregate of the incoming
accumulator and the statuses of the `StepEnd` events it emits. -/
theorem run_steps_debug_status (o : DockerOracle) (cid : String) :
    ∀ (steps : List Step) (idx : Nat) (fin : EventStatus),
      (run_steps_debug o cid steps idx fin).2 =
        aggregate (fin ::
          stepEndStatuses (traceEvents (run_steps_debug o cid steps idx fin).1)) := by
  intro steps
  induction steps with
  | nil =>
    intro idx fin
    simp [run_steps_debug, traceEvents, stepEndStatuses, aggregate_singleton]
  | cons step rest ih =>
    intro idx fin
    cases hout : o.exec_command idx with
    | mk logs res =>
      cases res with
      | error err =>
        have hrw : run_steps_debug o cid (step :: rest) idx fin =
            (.event (.StepStart step) :: ((logEvents logs step.name).map .event ++
              [.event (.StepEnd step .FAILURE 1)]), .FAILURE) := by
          simp [run_steps_debug, hout]
        rw [hrw]
        rw [show traceEvents (.event (.StepStart step) ::
            ((logEvents logs step.name).map .event ++
              [.event (.StepEnd step .FAILURE 1)])) =
            .StepStart step :: (logEvents logs step.name ++
              [.StepEnd step .FAILURE 1]) from by
          rw [traceEvents_cons_event, traceEvents_append, traceEvents_map_event]
          rfl]
        rw [stepEndStatuses_cons_other (.StepStart step) _ rfl, stepEndStatuses_append,
          stepEndStatuses_logEvents]
        simp [stepEndStatuses, aggregate]
      | ok code =>
        by_cases h0 : code = 0
        · cases htr : run_steps_debug o cid rest (idx + 1) fin with
          | mk tr fin' =>
            have hrw : run_steps_debug o cid (step :: rest) idx fin =
                (.event (.StepStart step) :: ((logEvents logs step.name).map .event ++
                  ([.event (.StepEnd step .SUCCESS code)] ++ tr)), fin') := by
              simp [run_steps_debug, hout, h0, htr]
            rw [hrw]
            have hih := ih (idx + 1) fin
            rw [htr] at hih
            rw [show traceEvents (.event (.StepStart step) ::
                ((logEvents logs step.name).map .event ++
                  ([.event (.StepEnd step .SUCCESS code)] ++ tr))) =
                .StepStart step :: (logEvents logs step.name ++
                  (.StepEnd step .SUCCESS code :: traceEvents tr)) from by
              rw [traceEvents_cons_event, traceEvents_append, traceEvents_map_event,
                traceEvents_append]
              rfl]
            rw [stepEndStatuses_cons_other (.StepStart step) _ rfl, stepEndStatuses_append,
              stepEndStatuses_logEvents, stepEndStatuses_cons_stepEnd]
            simp only [List.nil_append]
            rw [aggregate_insert_success]
            exact hih
        · by_cases hcrit : step.critical
          · have hrw : run_steps_debug o cid (step :: rest) idx fin =
                (.event (.StepStart step) :: ((logEvents logs step.name).map .event ++
                  [.event (.StepEnd step .FAILURE code),
                   .event (.DebugShellStarting step cid)]), .FAILURE) := by
              simp [run_steps_debug, hout, h0, hcrit]
            rw [hrw]
            rw [show traceEvents (.event (.StepStart step) ::
                ((logEvents logs step.name).map .event ++
                  [.event (.StepEnd step .FAILURE code),
                   .event (.DebugShellStarting step cid)])) =
                .StepStart step :: (logEvents logs step.name ++
                  [.StepEnd step .FAILURE code, .DebugShellStarting step cid]) from by
              rw [traceEvents_cons_event, traceEvents_append, traceEvents_map_event]
              rfl]
            rw [stepEndStatuses_cons_other (.StepStart step) _ rfl, stepEndStatuses_append,
              stepEndStatuses_logEvents]
            simp [stepEndStatuses, aggregate]
          · cases htr : run_steps_debug o cid rest (idx + 1)
                (if fin = .FAILURE then fin else .WARNING) with
            | mk tr fin' =>
              have hrw : run_steps_debug o cid (step :: rest) idx fin =
                  (.event (.StepStart step) :: ((logEvents logs step.name).map .event ++
                    ([.event (.StepEnd step .WARNING code)] ++ tr)), fin') := by
                simp [run_steps_debug, hout, h0, hcrit, htr]
              rw [hrw]
              have hih := ih (idx + 1) (if fin = .FAILURE then fin else .WARNING)
              rw [htr] at hih
              rw [show traceEvents (.event (.StepStart step) ::
                  ((logEvents logs step.name).map .event ++
                    ([.event (.StepEnd step .WARNING code)] ++ tr))) =
                  .StepStart step :: (logEvents logs step.name ++
                    (.StepEnd step .WARNING code :: traceEvents tr)) from by
                rw [traceEvents_cons_event, traceEvents_append, traceEvents_map_event,
                  traceEvents_append]
                rfl]
              rw [stepEndStatuses_cons_other (.StepStart step) _ rfl,
                stepEndStatuses_append, stepEndStatuses_logEvents,
                stepEndStatuses_cons_stepEnd]
              simp only [List.nil_append]
              have hw := aggregate_insert_warning fin (stepEndStatuses (traceEvents tr))
              rw [show (if fin ≠ EventStatus.FAILURE then EventStatus.WARNING else fin) =
                  (if fin = EventStatus.FAILURE then fin else EventStatus.WARNING) by
                by_cases hfin : fin = .FAILURE <;> simp [hfin]] at hw
              rw [← hw]
              exact hih

/-- Classification of the `StepEnd` events of the debug loop, on runs where
every exec call returns an exit code. -/
theorem run_steps_debug_classify (o : DockerOracle) (cid : String)
    (hexec : ∀ i, ∃ c, (o.exec_command i).result = .ok c) :
    ∀ (steps : List Step) (idx : Nat) (fin : EventStatus)
      (step : Step) (status : EventStatus) (ec : Int),
      PipelineEvent.StepEnd step status ec ∈
        traceEvents (run_steps_debug o cid steps idx fin).1 →
      (ec = 0 → status = .SUCCESS) ∧
      (ec ≠ 0 → step.critical = true → status = .FAILURE) ∧
      (ec ≠ 0 → step.critical = false → status = .WARNING) := by
  intro steps
  induction steps with
  | nil =>
    intro idx fin step status ec he
    simp [run_steps_debug, traceEvents] at he
  | cons s rest ih =>
    intro idx fin step status ec he
    obtain ⟨c, hc⟩ := hexec idx
    have hlogs := logEvents_shape (o.exec_command idx).logs s.name
    simp only [run_steps_debug, hc] at he
    by_cases h0 : c = 0
    · rw [if_pos h0] at he
      cases htr : run_steps_debug o cid rest (idx + 1) fin with
      | mk tr fin' =>
        rw [htr] at he
        simp only [List.cons_append, traceEvents_cons_event] at he
        rcases List.mem_cons.mp he with heq | he
        · exact absurd heq (by simp)
        rw [traceEvents_append, traceEvents_append, traceEvents_map_event] at he
        rcases List.mem_append.mp he with he | he
        · rcases List.mem_append.mp he with he | he
          · exact absurd (hlogs _ he).1 (by simp [isStepEnd])
          · rw [show traceEvents [.event (.StepEnd s .SUCCESS c)] =
                [PipelineEvent.StepEnd s .SUCCESS c] from rfl] at he
            obtain ⟨rfl, rfl, rfl⟩ :=
              (PipelineEvent.StepEnd.injEq ..).mp (List.mem_singleton.mp he)
            exact ⟨fun _ => rfl, fun hne => (hne h0).elim, fun hne => (hne h0).elim⟩
        · have := ih (idx + 1) fin step status ec
          rw [htr] at this
          exact this he
    · rw [if_neg h0] at he
      by_cases hcrit : s.critical
      · rw [if_pos hcrit] at he
        simp only [List.cons_append, traceEvents_cons_event] at he
        rcases List.mem_cons.mp he with heq | he
        · exact absurd heq (by simp)
        rw [traceEvents_append, traceEvents_map_event] at he
        rcases List.mem_append.mp he with he | he
        · exact absurd (hlogs _ he).1 (by simp [isStepEnd])
        · rw [show traceEvents [.event (.StepEnd s .FAILURE c),
              .event (.DebugShellStarting s cid)] =
              [PipelineEvent.StepEnd s .FAILURE c,
               .DebugShellStarting s cid] from rfl] at he
          rcases List.mem_cons.mp he with heq | he
          · obtain ⟨rfl, rfl, rfl⟩ := (PipelineEvent.StepEnd.injEq ..).mp heq
            exact ⟨fun h' => (h0 h').elim, fun _ _ => rfl,
              fun _ hcf => absurd hcrit (by simp [hcf])⟩
          · exact absurd (List.mem_singleton.mp he) (by simp)
      · rw [if_neg hcrit] at he
        cases htr : run_steps_debug o cid rest (idx + 1)
            (if fin ≠ .FAILURE then .WARNING else fin) with
        | mk tr fin' =>
          rw [htr] at he
          simp only [List.cons_append, traceEvents_cons_event] at he
          rcases List.mem_cons.mp he with heq | he
          · exact absurd heq (by simp)
          rw [traceEvents_append, traceEvents_append, traceEvents_map_event] at he
          rcases List.mem_append.mp he with he | he
          · rcases List.mem_append.mp he with he | he
            · exact absurd (hlogs _ he).1 (by simp [isStepEnd])
            · rw [show traceEvents [.event (.StepEnd s .WARNING c)] =
                  [PipelineEvent.StepEnd s .WARNING c] from rfl] at he
              obtain ⟨rfl, rfl, rfl⟩ :=
                (PipelineEvent.StepEnd.injEq ..).mp (List.mem_singleton.mp he)
              exact ⟨fun h' => (h0 h').elim,
                fun _ hct => absurd hct (by simpa using hcrit), fun _ _ => rfl⟩
          · have := ih (idx + 1) (if fin ≠ .FAILURE then .WARNING else fin) step status ec
            rw [htr] at this
            exact this he

/-! ## Image-preparation event-shape lemmas -/

/-- Dockerfile-preparation events are only build events: never a `StepEnd`
and never a `PipelineEnd`. -/
theorem prepare_from_dockerfile_shape (o : DockerOracle) (ctx : RunContext)
    (rel : String) :
    ∀ e ∈ (prepare_from_dockerfile o ctx rel).1,
      isStepEnd e = false ∧ isPipelineEnd e = false := by
  intro e he
  cases hh : o.calculate_dockerfile_hash (ctx.git_root ++ "/" ++ rel) with
  | error err =>
    simp only [prepare_from_dockerfile, hh] at he
    simp at he
  | ok hash =>
    cases hex : o.image_exists ("hookci/" ++ ctx.repo_name ++ ":" ++ hash) with
    | error err =>
      simp only [prepare_from_dockerfile, hh, hex] at he
      simp at he
    | ok b =>
      cases b with
      | true =>
        simp only [prepare_from_dockerfile, hh, hex] at he
        simp at he
      | false =>
        cases hcount : o.count_dockerfile_steps (ctx.git_root ++ "/" ++ rel) with
        | error err =>
          simp only [prepare_from_dockerfile, hh, hex, hcount] at he
          simp at he
        | ok total =>
          cases hb : o.build_image (ctx.git_root ++ "/" ++ rel)
              ("hookci/" ++ ctx.repo_name ++ ":" ++ hash) with
          | mk lines res =>
            cases res with
            | ok u =>
              simp only [prepare_from_dockerfile, hh, hex, hcount, hb] at he
              rcases List.mem_cons.mp he with rfl | he
              · exact ⟨rfl, rfl⟩
              rcases List.mem_append.mp he with he | he
              · obtain ⟨sl, -, rfl⟩ := List.mem_map.mp he
                exact ⟨rfl, rfl⟩
              · rw [List.mem_singleton.mp he]
                exact ⟨rfl, rfl⟩
            | error err =>
              simp only [prepare_from_dockerfile, hh, hex, hcount, hb] at he
              rcases List.mem_cons.mp he with rfl | he
              · exact ⟨rfl, rfl⟩
              rcases List.mem_append.mp he with he | he
              · obtain ⟨sl, -, rfl⟩ := List.mem_map.mp he
                exact ⟨rfl, rfl⟩
              · rw [List.mem_singleton.mp he]
                exact ⟨rfl, rfl⟩

/-- Registry-preparation events are only pull events: never a `StepEnd` and
never a `PipelineEnd`. -/
theorem prepare_from_registry_shape (o : DockerOracle) (image_name : String) :
    ∀ e ∈ (prepare_from_registry o image_name).1,
      isStepEnd e = false ∧ isPipelineEnd e = false := by
  intro e he
  unfold prepare_from_registry at he
  split at he
  · simp at he
  · split at he
    · rcases List.mem_cons.mp he with rfl | he
      · exact ⟨rfl, rfl⟩
      · rw [List.mem_singleton.mp he]
        exact ⟨rfl, rfl⟩
    · rcases List.mem_cons.mp he with rfl | he
      · exact ⟨rfl, rfl⟩
      · rw [List.mem_singleton.mp he]
        exact ⟨rfl, rfl⟩

/-- Image-preparation events (either path) are never a `StepEnd` nor a
`PipelineEnd`. -/
theorem prepare_docker_image_shape {o : DockerOracle} {ctx : RunContext}
    {cfg : Configuration} {prep : List PipelineEvent} {img : Option String}
    (h : prepare_docker_image o ctx cfg = .ok (prep, img)) :
    ∀ e ∈ prep, isStepEnd e = false ∧ isPipelineEnd e = false := by
  unfold prepare_docker_image at h
  split at h
  · have hpair := Except.ok.inj h
    intro e he
    apply prepare_from_dockerfile_shape o ctx (cfg.docker.dockerfile.getD "") e
    rw [hpair]
    exact he
  · split at h
    · have hpair := Except.ok.inj h
      intro e he
      apply prepare_from_registry_shape o (cfg.docker.image.getD "") e
      rw [hpair]
      exact he
    · simp at h

/-- Events with neither `StepEnd` nor `PipelineEnd` shape contribute no
statuses. -/
theorem statuses_nil_of_shape {l : List PipelineEvent}
    (h : ∀ e ∈ l, isStepEnd e = false ∧ isPipelineEnd e = false) :
    stepEndStatuses l = [] ∧ pipelineEndStatuses l = [] := by
  constructor
  · rw [stepEndStatuses, List.filterMap_eq_nil_iff]
    intro e he
    have := (h e he).1
    cases e <;> simp_all [isStepEnd]
  · rw [pipelineEndStatuses, List.filterMap_eq_nil_iff]
    intro e he
    have := (h e he).2
    cases e <;> simp_all [isPipelineEnd]

/-! ## Claim C3: step-status classification -/

/-- **C3.** For every executed step — one whose driver call returned an exit
code rather than raising — the status carried by its `StepEnd` event is
determined by the step's exit code and `critical` flag: exit code 0 yields
SUCCESS; a non-zero exit code with `critical` true yields FAILURE; a
non-zero exit code with `critical` false yields WARNING.  This holds in both
standard and debug mode. -/
theorem step_end_status_classification (o : DockerOracle) (ctx : RunContext)
    (cfg : Configuration)
    (hrun : ∀ i, ∃ c, (o.run_command i).result = .ok c)
    (hexec : ∀ i, ∃ c, (o.exec_command i).result = .ok c) :
    (∀ step status ec, PipelineEvent.StepEnd step status ec ∈
        (run_pipeline_standard o ctx cfg).1 →
      (ec = 0 → status = .SUCCESS) ∧
      (ec ≠ 0 → step.critical = true → status = .FAILURE) ∧
      (ec ≠ 0 → step.critical = false → status = .WARNING)) ∧
    (∀ step status ec, PipelineEvent.StepEnd step status ec ∈
        traceEvents (run_pipeline_debug o ctx cfg).1 →
      (ec = 0 → status = .SUCCESS) ∧
      (ec ≠ 0 → step.critical = true → status = .FAILURE) ∧
      (ec ≠ 0 → step.critical = false → status = .WARNING)) := by
  constructor
  · intro step status ec he
    cases hprep : prepare_docker_image o ctx cfg with
    | error err =>
      simp only [run_pipeline_standard, hprep] at he
      exact absurd (List.mem_singleton.mp he) (by simp)
    | ok pr =>
      cases pr with
      | mk prep img =>
        have hshape := prepare_docker_image_shape hprep
        cases img with
        | none =>
          simp only [run_pipeline_standard, hprep] at he
          rcases List.mem_cons.mp he with heq | he
          · exact absurd heq (by simp)
          rcases List.mem_append.mp he with he | he
          · exact absurd (hshape _ he).1 (by simp [isStepEnd])
          · exact absurd (List.mem_singleton.mp he) (by simp)
        | some img =>
          simp only [run_pipeline_standard, hprep] at he
          rcases List.mem_cons.mp he with heq | he
          · exact absurd heq (by simp)
          rcases List.mem_append.mp he with he | he
          · exact absurd (hshape _ he).1 (by simp [isStepEnd])
          · exact run_steps_standard_classify o hrun cfg.steps 0 .SUCCESS
              step status ec he
  · intro step status ec he
    cases hprep : prepare_docker_image o ctx cfg with
    | error err =>
      simp only [run_pipeline_debug, hprep] at he
      exact absurd (List.mem_singleton.mp he) (by simp)
    | ok pr =>
      cases pr with
      | mk prep img =>
        have hshape := prepare_docker_image_shape hprep
        cases img with
        | none =>
          simp only [run_pipeline_debug, hprep, List.cons_append,
            traceEvents_cons_event] at he
          rcases List.mem_cons.mp he with heq | he
          · exact absurd heq (by simp)
          rw [traceEvents_append, traceEvents_map_event] at he
          rcases List.mem_append.mp he with he | he
          · exact absurd (hshape _ he).1 (by simp [isStepEnd])
          · rw [show traceEvents [.event (.PipelineEnd .FAILURE)] =
                [PipelineEvent.PipelineEnd .FAILURE] from rfl] at he
            exact absurd (List.mem_singleton.mp he) (by simp)
        | some img =>
          cases hstart : o.start_persistent_container with
          | error err =>
            simp only [run_pipeline_debug, hprep, hstart, List.cons_append,
              traceEvents_cons_event] at he
            rcases List.mem_cons.mp he with heq | he
            · exact absurd heq (by simp)
            rw [traceEvents_append, traceEvents_map_event] at he
            rcases List.mem_append.mp he with he | he
            · exact absurd (hshape _ he).1 (by simp [isStepEnd])
            · rw [show traceEvents [.event (.PipelineEnd .FAILURE)] =
                  [PipelineEvent.PipelineEnd .FAILURE] from rfl] at he
              exact absurd (List.mem_singleton.mp he) (by simp)
          | ok cid =>
            cases htr : run_steps_debug o cid cfg.steps 0 .SUCCESS with
            | mk tr fin =>
              simp only [run_pipeline_debug, hprep, hstart, htr, List.cons_append,
                traceEvents_cons_event] at he
              rcases List.mem_cons.mp he with heq | he
              · exact absurd heq (by simp)
              rw [traceEvents_append, traceEvents_append, traceEvents_map_event] at he
              rcases List.mem_append.mp he with he | he
              · rcases List.mem_append.mp he with he | he
                · exact absurd (hshape _ he).1 (by simp [isStepEnd])
                · have := run_steps_debug_classify o cid hexec cfg.steps 0 .SUCCESS
                    step status ec
                  rw [htr] at this
                  exact this he
              · rw [show traceEvents [.stop_and_remove cid,
                    .event (.PipelineEnd fin)] = [PipelineEvent.PipelineEnd fin]
                    from rfl] at he
                exact absurd (List.mem_singleton.mp he) (by simp)

/-- Witness for C3: in the two-step run under `oracleMixed`, the
non-critical step `b` exits 3 and its `StepEnd` carries WARNING. -/
theorem step_end_status_classification_witness :
    PipelineEvent.StepEnd ⟨"b", "false", false, [], []⟩ .WARNING 3 ∈
      (run_pipeline_standard oracleMixed ctx0 cfgTwoSteps).1 ∧
    ((3 : Int) ≠ 0 → (⟨"b", "false", false, [], []⟩ : Step).critical = false →
      EventStatus.WARNING = .WARNING) :=
  ⟨by decide,
   ((step_end_status_classification oracleMixed ctx0 cfgTwoSteps
      (fun i => ⟨if i = 0 then 0 else 3, by
        by_cases h : i = 0 <;> simp [oracleMixed, oracleGreen, h]⟩)
      (fun i => ⟨if i = 0 then 0 else 3, by
        by_cases h : i = 0 <;> simp [oracleMixed, oracleGreen, h]⟩)).1
     ⟨"b", "false", false, [], []⟩ .WARNING 3 (by decide)).2.2⟩

/-! ## Claim C1: exactly one PipelineEnd, last -/

/-- With an effectively configured docker section (non-empty dockerfile or
image), image preparation never raises. -/
theorem prepare_docker_image_isOk (o : DockerOracle) (ctx : RunContext)
    (cfg : Configuration)
    (hconf : strTruthy cfg.docker.dockerfile = true ∨
      strTruthy cfg.docker.image = true) :
    ∃ prep img, prepare_docker_image o ctx cfg = .ok (prep, img) := by
  unfold prepare_docker_image
  by_cases h1 : strTruthy cfg.docker.dockerfile
  · rw [if_pos h1]
    cases hp : prepare_from_dockerfile o ctx (cfg.docker.dockerfile.getD "") with
    | mk a b => exact ⟨a, b, rfl⟩
  · rw [if_neg h1]
    rcases hconf with hc | hc
    · exact absurd hc h1
    · rw [if_pos hc]
      cases hp : prepare_from_registry o (cfg.docker.image.getD "") with
      | mk a b => exact ⟨a, b, rfl⟩

/-- **C1 (counterexample).** The configuration whose `dockerfile` is the
empty string passes the pydantic docker validator (the field is not `None`),
yet its run emits `PipelineStart` and then raises `ConfigurationParseError`
(both truthiness tests in `_prepare_docker_image` fail): the stream carries
no `PipelineEnd` at all, and `PipelineEnd` is not its last event. -/
theorem pipeline_end_missing_counterexample :
    Docker.valid cfgBlankDockerfile.docker = true ∧
    (run_pipeline_standard oracleGreen ctx0 cfgBlankDockerfile).1 =
      [.PipelineStart 0 .INFO] ∧
    (run_pipeline_standard oracleGreen ctx0 cfgBlankDockerfile).2 =
      .error "ConfigurationParseError: No docker image or dockerfile was specified." ∧
    pipelineEndStatuses (run_pipeline_standard oracleGreen ctx0 cfgBlankDockerfile).1 =
      [] :=
  ⟨rfl, rfl, rfl, rfl⟩

/-- **C1 (amended).** For every run of the pipeline (standard or debug mode)
whose docker section carries a non-empty dockerfile or a non-empty image —
Python truthiness, which the pydantic validator does not quite enforce — the
run returns normally (the event stream terminates without an exception), and
the stream is a `PipelineEnd`-free prefix followed by exactly one
`PipelineEnd`, which is therefore the last event.  `PipelineStart` is the
first event of every such stream. -/
theorem pipeline_end_once_and_last (o : DockerOracle) (ctx : RunContext)
    (cfg : Configuration)
    (hconf : strTruthy cfg.docker.dockerfile = true ∨
      strTruthy cfg.docker.image = true) :
    ((run_pipeline_standard o ctx cfg).2 = .ok () ∧
      ∃ pre s, (run_pipeline_standard o ctx cfg).1 = pre ++ [.PipelineEnd s] ∧
        ∀ e ∈ pre, isPipelineEnd e = false) ∧
    ((run_pipeline_debug o ctx cfg).2 = .ok () ∧
      ∃ pre s, traceEvents (run_pipeline_debug o ctx cfg).1 =
          pre ++ [.PipelineEnd s] ∧
        ∀ e ∈ pre, isPipelineEnd e = false) := by
  obtain ⟨prep, img, hprep⟩ := prepare_docker_image_isOk o ctx cfg hconf
  have hshape := prepare_docker_image_shape hprep
  have hpre_free : ∀ e ∈ PipelineEvent.PipelineStart cfg.steps.length cfg.log_level ::
      prep, isPipelineEnd e = false := by
    intro e he
    rcases List.mem_cons.mp he with rfl | he
    · rfl
    · exact (hshape e he).2
  constructor
  · cases img with
    | none =>
      refine ⟨by simp [run_pipeline_standard, hprep], ?_⟩
      refine ⟨.PipelineStart cfg.steps.length cfg.log_level :: prep, .FAILURE, ?_, ?_⟩
      · simp [run_pipeline_standard, hprep]
      · exact hpre_free
    | some img =>
      obtain ⟨pre, s, hpre, hfree⟩ := run_steps_standard_shape o cfg.steps 0 .SUCCESS
      refine ⟨by simp [run_pipeline_standard, hprep], ?_⟩
      refine ⟨.PipelineStart cfg.steps.length cfg.log_level :: prep ++ pre, s, ?_, ?_⟩
      · simp [run_pipeline_standard, hprep, hpre]
      · intro e he
        rcases List.mem_cons.mp he with rfl | he
        · rfl
        rcases List.mem_append.mp he with he | he
        · exact (hshape e he).2
        · exact hfree e he
  · cases img with
    | none =>
      refine ⟨by simp [run_pipeline_debug, hprep], ?_⟩
      refine ⟨.PipelineStart cfg.steps.length cfg.log_level :: prep, .FAILURE, ?_, ?_⟩
      · simp only [run_pipeline_debug, hprep, List.cons_append, traceEvents_cons_event,
          traceEvents_append, traceEvents_map_event]
        rfl
      · exact hpre_free
    | some img =>
      cases hstart : o.start_persistent_container with
      | error err =>
        refine ⟨by simp [run_pipeline_debug, hprep, hstart], ?_⟩
        refine ⟨.PipelineStart cfg.steps.length cfg.log_level :: prep, .FAILURE, ?_, ?_⟩
        · simp only [run_pipeline_debug, hprep, hstart, List.cons_append,
            traceEvents_cons_event, traceEvents_append, traceEvents_map_event]
          rfl
        · exact hpre_free
      | ok cid =>
        cases htr : run_steps_debug o cid cfg.steps 0 .SUCCESS with
        | mk tr fin =>
          have hfree := run_steps_debug_no_pipelineEnd o cid cfg.steps 0 .SUCCESS
          rw [htr] at hfree
          refine ⟨by simp [run_pipeline_debug, hprep, hstart, htr], ?_⟩
          refine ⟨.PipelineStart cfg.steps.length cfg.log_level :: prep ++
            traceEvents tr, fin, ?_, ?_⟩
          · simp only [run_pipeline_debug, hprep, hstart, htr, List.cons_append,
              traceEvents_cons_event, traceEvents_append, traceEvents_map_event]
            simp [traceEvents]
          · intro e he
            rcases List.mem_cons.mp he with rfl | he
            · rfl
            rcases List.mem_append.mp he with he | he
            · exact (hshape e he).2
            · exact hfree e he

/-- Witness for the amended C1: the two-step run under `oracleMixed`. -/
theorem pipeline_end_once_and_last_witness :
    (strTruthy cfgTwoSteps.docker.dockerfile = true ∨
      strTruthy cfgTwoSteps.docker.image = true) ∧
    ((run_pipeline_standard oracleMixed ctx0 cfgTwoSteps).2 = .ok () ∧
      ∃ pre s, (run_pipeline_standard oracleMixed ctx0 cfgTwoSteps).1 =
          pre ++ [.PipelineEnd s] ∧
        ∀ e ∈ pre, isPipelineEnd e = false) :=
  ⟨Or.inr (by decide),
   (pipeline_end_once_and_last oracleMixed ctx0 cfgTwoSteps
     (Or.inr (by decide))).1⟩

/-! ## Claim C2: final status versus StepEnd statuses -/

/-- A leading `SUCCESS` does not affect the verdict. -/
theorem aggregate_cons_success (l : List EventStatus) :
    aggregate (.SUCCESS :: l) = aggregate l := by
  simp [aggregate]

/-- **C2 (counterexample).** The claim quantifies over *every* run that
emits a `PipelineEnd`.  When image preparation fails — here the registry
image is absent and the pull raises — the run emits `PipelineEnd FAILURE`
with no `StepEnd` at all: every emitted `StepEnd` (vacuously) has status
SUCCESS, yet the final status is not SUCCESS, and the final status is
FAILURE although no `StepEnd` has status FAILURE. -/
theorem final_status_vs_stepends_counterexample :
    pipelineEndStatuses (run_pipeline_standard oraclePullFail ctx0 cfgPull).1 =
      [.FAILURE] ∧
    stepEndStatuses (run_pipeline_standard oraclePullFail ctx0 cfgPull).1 = [] ∧
    ¬ ((EventStatus.FAILURE = .SUCCESS ↔
        ∀ x ∈ stepEndStatuses (run_pipeline_standard oraclePullFail ctx0 cfgPull).1,
          x = .SUCCESS) ∧
       (EventStatus.FAILURE = .FAILURE ↔
        EventStatus.FAILURE ∈
          stepEndStatuses (run_pipeline_standard oraclePullFail ctx0 cfgPull).1)) :=
  ⟨rfl, rfl, by decide⟩

/-- **C2 (amended).** For every run that emits a `PipelineEnd` event and in
which image preparation returned an image — and, in debug mode, the
persistent container started — the final status is SUCCESS iff every emitted
`StepEnd` has status SUCCESS, FAILURE iff at least one emitted `StepEnd` has
status FAILURE, and WARNING otherwise. -/
theorem final_status_aggregation (o : DockerOracle) (ctx : RunContext)
    (cfg : Configuration) (prep : List PipelineEvent) (img : String)
    (hprep : prepare_docker_image o ctx cfg = .ok (prep, some img)) :
    (∃ s, pipelineEndStatuses (run_pipeline_standard o ctx cfg).1 = [s] ∧
      (s = .SUCCESS ↔
        ∀ x ∈ stepEndStatuses (run_pipeline_standard o ctx cfg).1, x = .SUCCESS) ∧
      (s = .FAILURE ↔
        .FAILURE ∈ stepEndStatuses (run_pipeline_standard o ctx cfg).1) ∧
      (s = .WARNING ↔
        ¬ (∀ x ∈ stepEndStatuses (run_pipeline_standard o ctx cfg).1,
            x = .SUCCESS) ∧
        .FAILURE ∉ stepEndStatuses (run_pipeline_standard o ctx cfg).1)) ∧
    (∀ cid, o.start_persistent_container = .ok cid →
      ∃ s, pipelineEndStatuses (traceEvents (run_pipeline_debug o ctx cfg).1) = [s] ∧
        (s = .SUCCESS ↔
          ∀ x ∈ stepEndStatuses (traceEvents (run_pipeline_debug o ctx cfg).1),
            x = .SUCCESS) ∧
        (s = .FAILURE ↔
          .FAILURE ∈ stepEndStatuses (traceEvents (run_pipeline_debug o ctx cfg).1)) ∧
        (s = .WARNING ↔
          ¬ (∀ x ∈ stepEndStatuses (traceEvents (run_pipeline_debug o ctx cfg).1),
              x = .SUCCESS) ∧
          .FAILURE ∉ stepEndStatuses (traceEvents (run_pipeline_debug o ctx cfg).1))) := by
  have hshape := prepare_docker_image_shape hprep
  obtain ⟨hsnil, hpnil⟩ := statuses_nil_of_shape hshape
  constructor
  · have hev : (run_pipeline_standard o ctx cfg).1 =
        .PipelineStart cfg.steps.length cfg.log_level ::
          (prep ++ run_steps_standard o cfg.steps 0 .SUCCESS) := by
      simp [run_pipeline_standard, hprep]
    rw [hev,
      stepEndStatuses_cons_other (.PipelineStart cfg.steps.length cfg.log_level) _ rfl,
      pipelineEndStatuses_cons_other (.PipelineStart cfg.steps.length cfg.log_level) _ rfl,
      stepEndStatuses_append, pipelineEndStatuses_append, hsnil, hpnil,
      List.nil_append, List.nil_append]
    rw [run_steps_standard_status o cfg.steps 0 .SUCCESS]
    refine ⟨aggregate (.SUCCESS :: stepEndStatuses
      (run_steps_standard o cfg.steps 0 .SUCCESS)), rfl, ?_⟩
    rw [aggregate_cons_success]
    exact ⟨(aggregate_status_iff _).1, (aggregate_status_iff _).2.1,
      (aggregate_status_iff _).2.2⟩
  · intro cid hstart
    cases htr : run_steps_debug o cid cfg.steps 0 .SUCCESS with
    | mk tr fin =>
      have hev : traceEvents (run_pipeline_debug o ctx cfg).1 =
          .PipelineStart cfg.steps.length cfg.log_level ::
            (prep ++ (traceEvents tr ++ [.PipelineEnd fin])) := by
        simp only [run_pipeline_debug, hprep, hstart, htr, List.cons_append,
          traceEvents_cons_event, traceEvents_append, traceEvents_map_event]
        simp [traceEvents]
      have hfin : fin = aggregate (.SUCCESS :: stepEndStatuses (traceEvents tr)) := by
        have h0 := run_steps_debug_status o cid cfg.steps 0 .SUCCESS
        rw [htr] at h0
        exact h0
      have hnop : pipelineEndStatuses (traceEvents tr) = [] := by
        rw [pipelineEndStatuses, List.filterMap_eq_nil_iff]
        intro e he
        have hfree := run_steps_debug_no_pipelineEnd o cid cfg.steps 0 .SUCCESS e
        rw [htr] at hfree
        have := hfree he
        cases e <;> simp_all [isPipelineEnd]
      rw [hev,
        stepEndStatuses_cons_other (.PipelineStart cfg.steps.length cfg.log_level) _ rfl,
        pipelineEndStatuses_cons_other (.PipelineStart cfg.steps.length cfg.log_level) _ rfl,
        stepEndStatuses_append, pipelineEndStatuses_append, hsnil, hpnil,
        List.nil_append, List.nil_append, stepEndStatuses_append,
        pipelineEndStatuses_append,
        show stepEndStatuses [PipelineEvent.PipelineEnd fin] = [] from rfl,
        show pipelineEndStatuses [PipelineEvent.PipelineEnd fin] = [fin] from rfl,
        List.append_nil, hnop, List.nil_append]
      refine ⟨fin, rfl, ?_⟩
      rw [hfin, aggregate_cons_success]
      exact ⟨(aggregate_status_iff _).1, (aggregate_status_iff _).2.1,
        (aggregate_status_iff _).2.2⟩

/-- Witness for the amended C2: the mixed two-step run ends WARNING, with a
WARNING `StepEnd` and no FAILURE `StepEnd`. -/
theorem final_status_aggregation_witness :
    ∃ s, pipelineEndStatuses (run_pipeline_standard oracleMixed ctx0 cfgTwoSteps).1 =
        [s] ∧
      (s = .SUCCESS ↔
        ∀ x ∈ stepEndStatuses (run_pipeline_standard oracleMixed ctx0 cfgTwoSteps).1,
          x = .SUCCESS) ∧
      (s = .FAILURE ↔
        .FAILURE ∈ stepEndStatuses (run_pipeline_standard oracleMixed ctx0 cfgTwoSteps).1) ∧
      (s = .WARNING ↔
        ¬ (∀ x ∈ stepEndStatuses (run_pipeline_standard oracleMixed ctx0 cfgTwoSteps).1,
            x = .SUCCESS) ∧
        .FAILURE ∉ stepEndStatuses (run_pipeline_standard oracleMixed ctx0 cfgTwoSteps).1) :=
  (final_status_aggregation oracleMixed ctx0 cfgTwoSteps [] "busybox:latest" rfl).1

end HookCI
